import Mathlib

/-!
# Pastebin: the paste store, the identifier generator and the client

A shallow embedding of `utils.go`, `server.go` and `client/client.go`.

* Go strings and byte slices are lists of bytes (`GoString`), a byte being a
  natural number below 256.
* `crypto/rand` is the list of bytes the random source hands out.
* The store is `github.com/patrickmn/go-cache`, embedded as a finite map from
  keys to items carrying an absolute expiration in Unix nanoseconds; the
  clock reading of each library call is an explicit argument.
* The outcome of `accept.Negotiate` is an explicit argument of each handler.
* `http.ServeContent` is embedded from `net/http`: the `Range` header is
  parsed, the verdict on a conditional header that is present is left open.
* A Go `int` is an integer wrapped to 64 bits where the code multiplies.
-/

namespace Pastebin

/-! ## Go strings -/

/-- A Go `string` or `[]byte`: its bytes in order. -/
abbrev GoString := List Nat

/-- Bytes of an ASCII literal. -/
def ascii (s : String) : GoString := s.toList.map Char.toNat

/-- Go slice expression `s[lo:hi]`; `none` is the run-time panic
"slice bounds out of range". -/
def slice (s : GoString) (lo hi : Nat) : Option GoString :=
  if lo ≤ hi ∧ hi ≤ s.length then some ((s.drop lo).take (hi - lo)) else none

/-! ## encoding/base64, `StdEncoding` -/

/-- The alphabet of `base64.StdEncoding` (`encodeStd` in encoding/base64). -/
def encodeStd : GoString :=
  ascii "ABCDEFGHIJKLMNOPQRSTUVWXYZabcdefghijklmnopqrstuvwxyz0123456789+/"

/-- The padding character of `StdEncoding`, `=`. -/
def StdPadding : Nat := 61

/-- Table lookup `enc.encode[v & 0x3F]`. -/
def encodeChar (v : Nat) : Nat := encodeStd.getD (v &&& 0x3F) 0

/-- Method `(*Encoding).Encode` for `StdEncoding`: full 3-byte groups become four
characters, a remainder of one or two bytes becomes two or three characters
followed by padding. -/
def Encode : GoString → GoString
  | a :: b :: c :: rest =>
      let val := a <<< 16 ||| b <<< 8 ||| c
      encodeChar (val >>> 18) :: encodeChar (val >>> 12) :: encodeChar (val >>> 6)
        :: encodeChar val :: Encode rest
  | [a, b] =>
      let val := a <<< 16 ||| b <<< 8
      [encodeChar (val >>> 18), encodeChar (val >>> 12), encodeChar (val >>> 6), StdPadding]
  | [a] =>
      let val := a <<< 16
      [encodeChar (val >>> 18), encodeChar (val >>> 12), StdPadding, StdPadding]
  | [] => []

/-- Function `base64.StdEncoding.EncodeToString`. -/
def EncodeToString (src : GoString) : GoString := Encode src

/-! ## crypto/rand -/

/-- Function `rand.Read(bytes)` on a freshly made `n`-byte slice: byte `i` of the slice
is byte `i` of the random source `rnd`; a position the source does not fill
keeps the zero that `make` put there. -/
def randRead (n : Nat) (rnd : List Nat) : GoString :=
  (List.range n).map (fun i => rnd.getD i 0 % 256)

/-! ## utils.go -/

/-- Function `RandomString(length)` as a function of the bytes of the random
source, for a length `0 ≤ length` whose buffer of `length*2` bytes `make`
creates; `RandomStringInt` is the call with `length` a Go `int`. -/
def RandomString (length : Nat) (rnd : List Nat) : Option GoString :=
  let bytes := randRead (length * 2) rnd
  let se := EncodeToString bytes
  slice se 0 length

/-- Go `int` arithmetic: the 64-bit two's complement value of `x`. -/
def wrapInt64 (x : Int) : Int := (x + 2 ^ 63) % 2 ^ 64 - 2 ^ 63

/-- Builtin `make([]byte, n)`: the length of the zeroed slice; `none` is the
run-time panic for an `n` that is negative or above `maxAlloc`, the largest
length the runtime allocates. -/
def makeBytes (maxAlloc : Nat) (n : Int) : Option Nat :=
  if n < 0 ∨ (maxAlloc : Int) < n then none else some n.toNat

/-- Function `RandomString(length)` with `length` a Go `int`: `length*2`
wraps, `make` panics on a negative or too large length, and `se[0:length]`
panics on a negative or too large bound; `none` is a panic. -/
def RandomStringInt (maxAlloc : Nat) (length : Int) (rnd : List Nat) : Option GoString :=
  match makeBytes maxAlloc (wrapInt64 (length * 2)) with
  | none => none
  | some n =>
      let bytes := randRead n rnd
      let se := EncodeToString bytes
      if 0 ≤ length then slice se 0 length.toNat else none

/-! ## strings -/

/-- Scan of `strings.ReplaceAll` for a non-empty `old`: `skip` counts the
bytes of a match still to be passed over. -/
def replaceAllFrom (old new : GoString) : GoString → Nat → GoString
  | [], _ => []
  | _ :: rest, skip + 1 => replaceAllFrom old new rest skip
  | c :: rest, 0 =>
      if old.isPrefixOf (c :: rest) then new ++ replaceAllFrom old new rest (old.length - 1)
      else c :: replaceAllFrom old new rest 0

/-- Function `strings.ReplaceAll(s, old, new)` for a non-empty `old`: every
non-overlapping occurrence of `old`, leftmost first, is replaced by `new`. -/
def ReplaceAll (s old new : GoString) : GoString := replaceAllFrom old new s 0

/-! ## github.com/patrickmn/go-cache

The store library imported by `server.go`, embedded from its source
(`cache.go`, v2.1.0): `Set` replaces, `Get` and `DeleteExpired` treat an item
as expired when the clock is strictly past a positive `Expiration`. -/

/-- An `Item` of the cache: the stored object and its expiration, in Unix
nanoseconds, `0` meaning that the item never expires. -/
structure Item where
  Object : GoString
  Expiration : Int
deriving DecidableEq, Repr

/-- The cache: `defaultExpiration`, the janitor's interval and the `items` map. -/
structure Cache where
  defaultExpiration : Int
  cleanupInterval : Int
  items : GoString → Option Item

namespace cache

/-- Constant `cache.NoExpiration`. -/
def NoExpiration : Int := -1

/-- Constant `cache.DefaultExpiration`. -/
def DefaultExpiration : Int := 0

/-- Function `cache.New(defaultExpiration, cleanupInterval)`: an empty cache; a default
expiration of `0` is turned into `-1` (no expiration). -/
def New (defaultExpiration cleanupInterval : Int) : Cache :=
  { defaultExpiration := if defaultExpiration = 0 then -1 else defaultExpiration
    cleanupInterval := cleanupInterval
    items := fun _ => none }

/-- Method `(*cache).Set(k, x, d)` at clock reading `now`: the item replaces any
existing item under `k`. -/
def Set (c : Cache) (k : GoString) (x : GoString) (d : Int) (now : Int) : Cache :=
  let d := if d = DefaultExpiration then c.defaultExpiration else d
  let e := if d > 0 then now + d else 0
  { c with items := fun j => if j = k then some { Object := x, Expiration := e } else c.items j }

/-- Method `(*cache).Get(k)` at clock reading `now`: the object and `true`, or
not found when the key is absent or the item has expired. -/
def Get (c : Cache) (k : GoString) (now : Int) : Option GoString :=
  match c.items k with
  | none => none
  | some item =>
      if item.Expiration > 0 ∧ now > item.Expiration then none else some item.Object

/-- Method `(*cache).Delete(k)`. -/
def Delete (c : Cache) (k : GoString) : Cache :=
  { c with items := fun j => if j = k then none else c.items j }

/-- Method `(*cache).DeleteExpired()` at clock reading `now`, the janitor's sweep. -/
def DeleteExpired (c : Cache) (now : Int) : Cache :=
  { c with items := fun j =>
      match c.items j with
      | none => none
      | some v => if v.Expiration > 0 ∧ now > v.Expiration then none else some v }

end cache

/-! ## server.go -/

/-- Variable `AcceptedTypes`. -/
def AcceptedTypes : List GoString := [ascii "text/html", ascii "text/plain"]

/-- Type `condResult` of net/http: the verdict on a conditional header. -/
inductive condResult where
  /-- The header is absent or does not apply. -/
  | condNone
  /-- The condition holds. -/
  | condTrue
  /-- The condition fails. -/
  | condFalse
deriving DecidableEq, Repr

/-- The parts of `*http.Request` and of the router parameters the handlers read. -/
structure Request where
  /-- Field `r.Method`. -/
  Method : GoString
  /-- Header `r.Header.Get("Range")`. -/
  Range : GoString
  /-- Header `r.Header.Get("If-Match")`. -/
  IfMatch : GoString
  /-- Header `r.Header.Get("If-Unmodified-Since")`. -/
  IfUnmodifiedSince : GoString
  /-- Header `r.Header.Get("If-None-Match")`. -/
  IfNoneMatch : GoString
  /-- Header `r.Header.Get("If-Modified-Since")`. -/
  IfModifiedSince : GoString
  /-- Header `r.Header.Get("If-Range")`. -/
  IfRange : GoString
  /-- Header `r.Header.Get("Accept")`. -/
  Accept : GoString
  /-- Field `r.Host`. -/
  Host : GoString
  /-- Field `r.URL`, as text. -/
  URL : GoString
  /-- Form value `r.FormValue("blob")`. -/
  blob : GoString
  /-- Router parameter `p.ByName("uuid")`. -/
  uuid : GoString

/-- Library functions the handlers call and this development leaves open. -/
structure Lib where
  /-- Function `accept.Negotiate(header, ctypes...)`; `none` is a non-nil error. -/
  Negotiate : GoString → List GoString → Option GoString
  /-- Text of `r.URL.ResolveReference(u).String()` for `u` parsed from a reference. -/
  ResolveReference : GoString → GoString → GoString
  /-- Verdict of `checkIfMatch` on a non-empty `If-Match` header. -/
  IfMatch : GoString → condResult
  /-- Verdict of `checkIfUnmodifiedSince` on a non-empty header and a `modtime`. -/
  IfUnmodifiedSince : GoString → Int → condResult
  /-- Verdict of `checkIfNoneMatch` on a non-empty `If-None-Match` header. -/
  IfNoneMatch : GoString → condResult
  /-- Verdict of `checkIfModifiedSince` on a non-empty header and a `modtime`. -/
  IfModifiedSince : GoString → Int → condResult
  /-- Verdict of `checkIfRange` on a non-empty `If-Range` header and a `modtime`. -/
  IfRange : GoString → Int → condResult
  /-- Text of `modtime.UTC().Format(http.TimeFormat)`. -/
  FormatTime : Int → GoString

/-- What a handler does to the `http.ResponseWriter`. -/
inductive Response where
  /-- Call `http.Error(w, msg, code)`. -/
  | error (msg : String) (code : Nat)
  /-- Call `http.Redirect(w, r, url, code)`. -/
  | redirect (url : GoString) (code : Nat)
  /-- Call `w.Write(body)`, status 200. -/
  | write (body : GoString)
  /-- Headers on `w`, `w.WriteHeader(code)` and the body written. -/
  | served (code : Nat) (headers : List (String × GoString)) (body : GoString)
  /-- Status 206 with a `multipart/byteranges` body made of the given
  `(start, length)` ranges of the content. -/
  | multipart (headers : List (String × GoString)) (ranges : List (Nat × Nat))
      (content : GoString)
  /-- Call `s.render(name, w, struct{Blob, UUID})`. -/
  | render (name : String) (Blob UUID : GoString)
deriving DecidableEq, Repr

/-! ## net/http: `ServeContent`

The part of `net/http` (`fs.go`) behind `http.ServeContent`, embedded from
its source: the conditional headers, the `Range` header and the body sent.
The verdict on a conditional header that is present is left to `Lib`. -/

/-- Response headers `w.Header()`. -/
abbrev Header := List (String × GoString)

/-- Method `Header.Set(key, value)`. -/
def setHeader (h : Header) (key : String) (value : GoString) : Header :=
  h.filter (fun e => e.1 ≠ key) ++ [(key, value)]

/-- Builtin `delete(h, key)`. -/
def delHeader (h : Header) (key : String) : Header :=
  h.filter (fun e => e.1 ≠ key)

/-- Function `strconv.FormatInt(n, 10)` for a non-negative `n`. -/
def FormatInt (n : Nat) : GoString := (Nat.toDigits 10 n).map Char.toNat

/-- Function `textproto.TrimString`: leading and trailing space, TAB, LF and
CR are dropped. -/
def TrimString (s : GoString) : GoString :=
  ((s.dropWhile (fun b => b = 32 || b = 9 || b = 10 || b = 13)).reverse.dropWhile
    (fun b => b = 32 || b = 9 || b = 10 || b = 13)).reverse

/-- Function `strings.Split(s, sep)` for a one-byte separator. -/
def Split (sep : Nat) : GoString → List GoString
  | [] => [[]]
  | c :: rest =>
      if c = sep then [] :: Split sep rest
      else
        match Split sep rest with
        | [] => [[c]]
        | p :: ps => (c :: p) :: ps

/-- Function `strings.Cut(s, sep)` for a one-byte separator: the text before
and after the first separator, and whether there is one. -/
def Cut (s : GoString) (sep : Nat) : GoString × GoString × Bool :=
  match s.dropWhile (fun b => b ≠ sep) with
  | [] => (s, [], false)
  | _ :: after => (s.takeWhile (fun b => b ≠ sep), after, true)

/-- Function `strconv.ParseInt(s, 10, 64)`: an optional sign and decimal
digits; `none` is a syntax or range error. -/
def ParseInt (s : GoString) : Option Int :=
  match s with
  | [] => none
  | c :: rest =>
      let neg := c = 45
      let ds := if c = 43 ∨ c = 45 then rest else s
      if ds = [] ∨ ¬ ds.all (fun d => 48 ≤ d && d ≤ 57) then none
      else
        let v : Nat := ds.foldl (fun (acc d : Nat) => acc * 10 + (d - 48)) 0
        if neg then (if v ≤ 2 ^ 63 then some (-(v : Int)) else none)
        else (if v < 2 ^ 63 then some (v : Int) else none)

/-- Type `httpRange`: a byte range of the content. -/
structure httpRange where
  start : Nat
  length : Nat
deriving DecidableEq, Repr

/-- What `parseRange` makes of one comma-separated range spec. -/
inductive RangeSpec where
  /-- An empty spec, passed over. -/
  | skip
  /-- A range that begins after the content, passed over with `noOverlap` set. -/
  | noOverlap
  /-- Error `invalid range`. -/
  | invalid
  /-- A range of the content. -/
  | range (r : httpRange)
deriving DecidableEq, Repr

/-- Body of the loop of `parseRange` for the spec `ra` and content of `size` bytes. -/
def parseRangeSpec (size : Nat) (ra : GoString) : RangeSpec :=
  let ra := TrimString ra
  if ra = [] then RangeSpec.skip
  else
    let cut := Cut ra 45
    if cut.2.2 = false then RangeSpec.invalid
    else
      let start := TrimString cut.1
      let stop := TrimString cut.2.1
      if start = [] then
        if stop = [] ∨ stop.head? = some 45 then RangeSpec.invalid
        else
          match ParseInt stop with
          | none => RangeSpec.invalid
          | some i =>
              if i < 0 then RangeSpec.invalid
              else
                let i := if (size : Int) < i then size else i.toNat
                RangeSpec.range { start := size - i, length := size - (size - i) }
      else
        match ParseInt start with
        | none => RangeSpec.invalid
        | some i =>
            if i < 0 then RangeSpec.invalid
            else if (size : Int) ≤ i then RangeSpec.noOverlap
            else if stop = [] then
              RangeSpec.range { start := i.toNat, length := size - i.toNat }
            else
              match ParseInt stop with
              | none => RangeSpec.invalid
              | some j =>
                  if j < i then RangeSpec.invalid
                  else
                    let j := if (size : Int) ≤ j then size - 1 else j.toNat
                    RangeSpec.range { start := i.toNat, length := j - i.toNat + 1 }

/-- Errors of `parseRange`. -/
inductive RangeError where
  /-- Error `invalid range`. -/
  | invalid
  /-- Error `errNoOverlap`, `invalid range: failed to overlap`. -/
  | noOverlap
deriving DecidableEq, Repr

/-- The loop of `parseRange` over the specs, with the ranges collected so far
and the `noOverlap` flag. -/
def parseRangeLoop (size : Nat) : List GoString → List httpRange → Bool →
    Except RangeError (List httpRange)
  | [], ranges, noOverlap =>
      if noOverlap = true ∧ ranges = [] then Except.error RangeError.noOverlap
      else Except.ok ranges
  | ra :: rest, ranges, noOverlap =>
      match parseRangeSpec size ra with
      | RangeSpec.skip => parseRangeLoop size rest ranges noOverlap
      | RangeSpec.noOverlap => parseRangeLoop size rest ranges true
      | RangeSpec.invalid => Except.error RangeError.invalid
      | RangeSpec.range r => parseRangeLoop size rest (ranges ++ [r]) noOverlap

/-- Function `parseRange(s, size)`: the ranges of a `Range` header; no header
gives no range. -/
def parseRange (s : GoString) (size : Nat) : Except RangeError (List httpRange) :=
  if s = [] then Except.ok []
  else if (ascii "bytes=").isPrefixOf s = false then Except.error RangeError.invalid
  else parseRangeLoop size (Split 44 (s.drop 6)) [] false

/-- Function `sumRangesSize`. -/
def sumRangesSize (ranges : List httpRange) : Nat :=
  (ranges.map (fun ra => ra.length)).sum

/-- Function `isZeroTime`: the zero time or the Unix epoch; a clock reading is
the former never and the latter at `0`. -/
def isZeroTime (t : Int) : Bool := t = 0

/-- Function `checkIfMatch`. -/
def checkIfMatch (L : Lib) (r : Request) : condResult :=
  if r.IfMatch = [] then condResult.condNone else L.IfMatch r.IfMatch

/-- Function `checkIfUnmodifiedSince`. -/
def checkIfUnmodifiedSince (L : Lib) (r : Request) (modtime : Int) : condResult :=
  if r.IfUnmodifiedSince = [] ∨ isZeroTime modtime = true then condResult.condNone
  else L.IfUnmodifiedSince r.IfUnmodifiedSince modtime

/-- Function `checkIfNoneMatch`. -/
def checkIfNoneMatch (L : Lib) (r : Request) : condResult :=
  if r.IfNoneMatch = [] then condResult.condNone else L.IfNoneMatch r.IfNoneMatch

/-- Function `checkIfModifiedSince`. -/
def checkIfModifiedSince (L : Lib) (r : Request) (modtime : Int) : condResult :=
  if r.Method ≠ ascii "GET" ∧ r.Method ≠ ascii "HEAD" then condResult.condNone
  else if r.IfModifiedSince = [] ∨ isZeroTime modtime = true then condResult.condNone
  else L.IfModifiedSince r.IfModifiedSince modtime

/-- Function `checkIfRange`. -/
def checkIfRange (L : Lib) (r : Request) (modtime : Int) : condResult :=
  if r.Method ≠ ascii "GET" ∧ r.Method ≠ ascii "HEAD" then condResult.condNone
  else if r.IfRange = [] then condResult.condNone
  else L.IfRange r.IfRange modtime

/-- Outcome of `checkPreconditions`. -/
inductive Preconditions where
  /-- Status 412 written, done. -/
  | preconditionFailed
  /-- Status 304 written by `writeNotModified`, done. -/
  | notModified
  /-- Not done: the `Range` header to honour, empty for none. -/
  | proceed (rangeHeader : GoString)
deriving DecidableEq, Repr

/-- Function `checkPreconditions(w, r, modtime)`. -/
def checkPreconditions (L : Lib) (r : Request) (modtime : Int) : Preconditions :=
  let ch := checkIfMatch L r
  let ch := if ch = condResult.condNone then checkIfUnmodifiedSince L r modtime else ch
  if ch = condResult.condFalse then Preconditions.preconditionFailed
  else
    match checkIfNoneMatch L r with
    | condResult.condFalse =>
        if r.Method = ascii "GET" ∨ r.Method = ascii "HEAD" then Preconditions.notModified
        else Preconditions.preconditionFailed
    | condResult.condNone =>
        if checkIfModifiedSince L r modtime = condResult.condFalse then
          Preconditions.notModified
        else if r.Range ≠ [] ∧ checkIfRange L r modtime = condResult.condFalse then
          Preconditions.proceed []
        else Preconditions.proceed r.Range
    | condResult.condTrue =>
        if r.Range ≠ [] ∧ checkIfRange L r modtime = condResult.condFalse then
          Preconditions.proceed []
        else Preconditions.proceed r.Range

/-- The end of `serveContent`, once the ranges are parsed: no range sends the
whole content with status 200, one range sends that part with status 206,
several ranges send a `multipart/byteranges` body. `Content-Length` is set
to the number of bytes sent; a `HEAD` request gets no body. -/
def sendRanges (r : Request) (h : Header) (content : GoString) (ranges : List httpRange) :
    Response :=
  let size := content.length
  let ranges := if sumRangesSize ranges > size then [] else ranges
  match ranges with
  | [] =>
      let h := setHeader h "Accept-Ranges" (ascii "bytes")
      let h := setHeader h "Content-Length" (FormatInt size)
      Response.served 200 h (if r.Method = ascii "HEAD" then [] else content)
  | [ra] =>
      let h := setHeader h "Content-Range"
        (ascii "bytes " ++ FormatInt ra.start ++ ascii "-"
          ++ FormatInt (ra.start + ra.length - 1) ++ ascii "/" ++ FormatInt size)
      let h := setHeader h "Accept-Ranges" (ascii "bytes")
      let h := setHeader h "Content-Length" (FormatInt ra.length)
      Response.served 206 h
        (if r.Method = ascii "HEAD" then [] else (content.drop ra.start).take ra.length)
  | ra :: rb :: rest =>
      Response.multipart h ((ra :: rb :: rest).map (fun x => (x.start, x.length))) content

/-- Function `http.ServeContent(w, r, name, modtime, content)` for a response
`w` with headers `h`, `Content-Type` among them (so `name` is not consulted)
and no `Content-Encoding`. -/
def ServeContent (L : Lib) (r : Request) (h : Header) (_name : GoString) (modtime : Int)
    (content : GoString) : Response :=
  let h := if isZeroTime modtime = true then h
    else setHeader h "Last-Modified" (L.FormatTime modtime)
  match checkPreconditions L r modtime with
  | Preconditions.preconditionFailed => Response.served 412 h []
  | Preconditions.notModified =>
      Response.served 304
        (delHeader (delHeader (delHeader h "Content-Type") "Content-Length")
          "Content-Encoding") []
  | Preconditions.proceed rangeReq =>
      match parseRange rangeReq content.length with
      | Except.ok ranges => sendRanges r h content ranges
      | Except.error RangeError.noOverlap =>
          if content.length = 0 then sendRanges r h content []
          else Response.error "invalid range: failed to overlap" 416
      | Except.error RangeError.invalid => Response.error "invalid range" 416

/-! ## server.go: the handlers -/

/-- The `Server`, reduced to its store: the router, templates, logger and
counters take no part in what the handlers store or answer. -/
structure Server where
  store : Cache

/-- Function `NewServer`: the store is `cache.New(cfg.expiry, cfg.expiry*2)`. -/
def NewServer (expiry : Int) : Server :=
  { store := cache.New expiry (expiry * 2) }

/-- Function `PasteHandler`. `rnd` is the random source read by `RandomString`, `now`
the clock reading of `store.Set`; `none` is a panic of `RandomString`. The
reference `./p/<uuid>` always parses, so the error branch of `url.Parse` is
not taken. -/
def PasteHandler (L : Lib) (s : Server) (r : Request) (rnd : List Nat) (now : Int) :
    Option (Response × Server) :=
  match L.Negotiate r.Accept AcceptedTypes with
  | none => some (Response.error "Internal Error" 500, s)
  | some accepts =>
    let blob := r.blob
    if blob.length = 0 then some (Response.error "Bad Request" 400, s)
    else
      match RandomString 8 rnd with
      | none => none
      | some uuid =>
        let store := cache.Set s.store uuid blob cache.DefaultExpiration now
        let u := ascii "./p/" ++ uuid
        if accepts = ascii "text/html" then
          some (Response.redirect (L.ResolveReference r.URL u) 302, { s with store := store })
        else
          some (Response.write (r.Host ++ L.ResolveReference r.URL u), { s with store := store })

/-- Function `DownloadHandler`; `now` is the clock reading of `store.Get` and
of `time.Now()`. -/
def DownloadHandler (L : Lib) (s : Server) (r : Request) (now : Int) : Response × Server :=
  let uuid := r.uuid
  if uuid = [] then (Response.error "Bad Request" 400, s)
  else
    match cache.Get s.store uuid now with
    | none => (Response.error "Not Found" 404, s)
    | some blob =>
      let content := blob
      let h := setHeader [] "Content-Disposition" (ascii "attachment; filename=" ++ uuid)
      let h := setHeader h "Content-Type" (ascii "application/octet-stream")
      let h := setHeader h "Content-Length" (FormatInt content.length)
      (ServeContent L r h uuid now content, s)

/-- Function `DeleteHandler`; `now` is the clock reading of `store.Get`. -/
def DeleteHandler (L : Lib) (s : Server) (r : Request) (now : Int) : Response × Server :=
  match L.Negotiate r.Accept AcceptedTypes with
  | none => (Response.error "Internal Error" 500, s)
  | some _ =>
    let uuid := r.uuid
    if uuid = [] then (Response.error "Bad Request" 400, s)
    else
      match cache.Get s.store uuid now with
      | none => (Response.error "Not Found" 404, s)
      | some _ => (Response.error "Deleted" 200, { s with store := cache.Delete s.store uuid })

/-- Function `ViewHandler`; `now` is the clock reading of `store.Get`. -/
def ViewHandler (L : Lib) (s : Server) (r : Request) (now : Int) : Response × Server :=
  match L.Negotiate r.Accept AcceptedTypes with
  | none => (Response.error "Internal Error" 500, s)
  | some accepts =>
    let uuid := r.uuid
    if uuid = [] then (Response.error "Bad Request" 400, s)
    else
      match cache.Get s.store uuid now with
      | none => (Response.error "Not Found" 404, s)
      | some rawBlob =>
        let blob := ReplaceAll rawBlob [9] (ascii "    ")
        if accepts = ascii "text/html" then (Response.render "view" blob uuid, s)
        else (Response.write blob, s)

/-! ## client/client.go, cmd/pb/main.go -/

/-- The `Client`. -/
structure Client where
  url : GoString
  insecure : Bool
deriving DecidableEq, Repr

/-- Function `NewClient`. -/
def NewClient (url : GoString) (insecure : Bool) : Client :=
  { url := url, insecure := insecure }

/-- The field of `tls.Config` that `Paste` sets. -/
structure TLSConfig where
  InsecureSkipVerify : Bool
deriving DecidableEq, Repr

/-- The `TLSClientConfig` of the transport that `(*Client).Paste` builds. -/
def Client.PasteTLSClientConfig (c : Client) : TLSConfig :=
  { InsecureSkipVerify := !c.insecure }

/-- Default of the `-insecure` flag in `cmd/pb/main.go`
(`flag.BoolVar(&insecure, "insecure", false, ...)`). -/
def defaultInsecure : Bool := false

/-! ## Concrete inputs -/

/-- A negotiator that always settles on `text/plain`. -/
def plainLib : Lib :=
  { Negotiate := fun _ _ => some (ascii "text/plain")
    ResolveReference := fun _ u => u
    IfMatch := fun _ => condResult.condFalse
    IfUnmodifiedSince := fun _ _ => condResult.condFalse
    IfNoneMatch := fun _ => condResult.condTrue
    IfModifiedSince := fun _ _ => condResult.condTrue
    IfRange := fun _ _ => condResult.condFalse
    FormatTime := fun _ => ascii "Thu, 01 Jan 1970 00:00:00 GMT" }

/-- A paste request carrying the given blob. -/
def pasteRequest (blob : GoString) : Request :=
  { Method := ascii "POST", Range := [], IfMatch := [], IfUnmodifiedSince := [],
    IfNoneMatch := [], IfModifiedSince := [], IfRange := [],
    Accept := [], Host := ascii "localhost:8000", URL := ascii "/", blob := blob, uuid := [] }

/-- A request for the paste `uuid`. -/
def idRequest (uuid : GoString) : Request :=
  { Method := ascii "GET", Range := [], IfMatch := [], IfUnmodifiedSince := [],
    IfNoneMatch := [], IfModifiedSince := [], IfRange := [],
    Accept := [], Host := ascii "localhost:8000", URL := ascii "/p/", blob := [], uuid := uuid }

/-- A `GET` request for the paste `uuid` with the given `Range` header and no
conditional header. -/
def rangeRequest (uuid range : GoString) : Request :=
  { Method := ascii "GET", Range := range, IfMatch := [], IfUnmodifiedSince := [],
    IfNoneMatch := [], IfModifiedSince := [], IfRange := [],
    Accept := [], Host := ascii "localhost:8000", URL := ascii "/download/", blob := [],
    uuid := uuid }

/-- A server whose store holds `blob` under `uuid`, set at time `t` with the
store-wide expiry `d`. -/
def serverWith (d : Int) (uuid blob : GoString) (t : Int) : Server :=
  { store := cache.Set (NewServer d).store uuid blob cache.DefaultExpiration t }

/-- The unreserved characters of a URL (RFC 3986): letters, digits, `-`, `_`,
`.` and `~`; these are the bytes a path segment carries without escaping. -/
def urlSafe (c : Nat) : Bool :=
  (65 ≤ c && c ≤ 90) || (97 ≤ c && c ≤ 122) || (48 ≤ c && c ≤ 57) ||
    c = 45 || c = 95 || c = 46 || c = 126

/-! ## Buffers, bits and 6-bit groups -/

/-- Table lookup without the mask. -/
def enc (i : Nat) : Nat := encodeStd.getD i 0

/-- The buffer holding the bytes `f 0, f 1, ...`. -/
def bufferOf {m : Nat} (f : Fin m → Fin 256) : GoString := List.ofFn (fun i => (f i).val)

/-- The four 6-bit groups of three bytes. -/
def sextetsOf (t : Fin 256 × Fin 256 × Fin 256) : Fin 4 → Fin 64 :=
  ![⟨t.1.val / 4, by omega⟩, ⟨t.1.val % 4 * 16 + t.2.1.val / 16, by omega⟩,
    ⟨t.2.1.val % 16 * 4 + t.2.2.val / 64, by omega⟩, ⟨t.2.2.val % 64, by omega⟩]

/-- The eight bits of a byte, most significant first. -/
def byteBits (b : Nat) : List Nat :=
  [b / 128 % 2, b / 64 % 2, b / 32 % 2, b / 16 % 2, b / 8 % 2, b / 4 % 2, b / 2 % 2, b % 2]

/-- The bits of a buffer, in order. -/
def bitsOf (buf : GoString) : List Nat := buf.flatMap byteBits

/-! ## Basic facts -/

theorem randRead_length (n : Nat) (rnd : List Nat) : (randRead n rnd).length = n := by
  simp [randRead]

theorem Encode_length : ∀ src : GoString, (Encode src).length = 4 * ((src.length + 2) / 3)
  | a :: b :: c :: rest => by
      simp only [Encode, List.length_cons, Encode_length rest]
      omega
  | [a, b] => by simp [Encode]
  | [a] => by simp [Encode]
  | [] => by simp [Encode]

theorem slice_zero (s : GoString) (n : Nat) (h : n ≤ s.length) :
    slice s 0 n = some (s.take n) := by
  simp [slice, h]

theorem RandomString_eq (n : Nat) (rnd : List Nat) :
    RandomString n rnd = some ((Encode (randRead (n * 2) rnd)).take n) := by
  unfold RandomString EncodeToString
  apply slice_zero
  rw [Encode_length, randRead_length]
  omega

theorem RandomString_length (n : Nat) (rnd : List Nat) :
    ∃ id, RandomString n rnd = some id ∧ id.length = n := by
  refine ⟨_, RandomString_eq n rnd, ?_⟩
  rw [List.length_take, Encode_length, randRead_length]
  omega

theorem PasteHandler_stores (L : Lib) (s : Server) (r : Request) (rnd : List Nat) (now : Int)
    (a : GoString) (ha : L.Negotiate r.Accept AcceptedTypes = some a) (hb : r.blob ≠ []) :
    ∃ id resp, RandomString 8 rnd = some id ∧ id.length = 8 ∧
      PasteHandler L s r rnd now
        = some (resp, { store := cache.Set s.store id r.blob cache.DefaultExpiration now }) ∧
      (resp = Response.redirect (L.ResolveReference r.URL (ascii "./p/" ++ id)) 302 ∨
        resp = Response.write (r.Host ++ L.ResolveReference r.URL (ascii "./p/" ++ id))) := by
  obtain ⟨id, hid, hlen⟩ := RandomString_length 8 rnd
  have hb' : ¬ r.blob.length = 0 := by
    intro h
    exact hb (List.length_eq_zero.mp h)
  by_cases hh : a = ascii "text/html"
  · refine ⟨id, _, hid, hlen, ?_, Or.inl rfl⟩
    simp only [PasteHandler, ha, hb', hid, hh, if_true, if_false]
  · refine ⟨id, _, hid, hlen, ?_, Or.inr rfl⟩
    simp only [PasteHandler, ha, hb', hid, hh, if_false]

theorem Set_items_same (c : Cache) (k x : GoString) (d now : Int) :
    (cache.Set c k x d now).items k
      = some { Object := x
               Expiration :=
                 if (if d = cache.DefaultExpiration then c.defaultExpiration else d) > 0
                 then now + (if d = cache.DefaultExpiration then c.defaultExpiration else d)
                 else 0 } := by
  simp [cache.Set]

theorem Set_items_other (c : Cache) (k x : GoString) (d now : Int) (j : GoString) (h : j ≠ k) :
    (cache.Set c k x d now).items j = c.items j := by
  simp [cache.Set, h]

theorem Get_Set_same (c : Cache) (k x : GoString) (now q : Int)
    (hq : 0 < c.defaultExpiration → q ≤ now + c.defaultExpiration) :
    cache.Get (cache.Set c k x cache.DefaultExpiration now) k q = some x := by
  unfold cache.Get
  rw [Set_items_same]
  simp only [if_true]
  by_cases hd : c.defaultExpiration > 0
  · have := hq hd
    simp only [hd, if_true]
    rw [if_neg]
    intro h
    omega
  · simp [hd]

theorem Get_Set_other (c : Cache) (k x : GoString) (d now q : Int) (j : GoString) (h : j ≠ k) :
    cache.Get (cache.Set c k x d now) j q = cache.Get c j q := by
  unfold cache.Get
  rw [Set_items_other c k x d now j h]

theorem Get_Delete_same (c : Cache) (k : GoString) (q : Int) :
    cache.Get (cache.Delete c k) k q = none := by
  simp [cache.Get, cache.Delete]

theorem Get_none_mono (c : Cache) (k : GoString) (q q2 : Int) (h : q ≤ q2)
    (hn : cache.Get c k q = none) : cache.Get c k q2 = none := by
  unfold cache.Get at hn ⊢
  cases hi : c.items k with
  | none => rfl
  | some item =>
    rw [hi] at hn
    simp only at hn ⊢
    by_cases he : item.Expiration > 0 ∧ q > item.Expiration
    · rw [if_pos]
      exact ⟨he.1, by omega⟩
    · rw [if_neg he] at hn
      cases hn

theorem replaceAllFrom_single (new : GoString) (t : Nat) :
    ∀ s : GoString, replaceAllFrom [t] new s 0 = s.flatMap (fun b => if b = t then new else [b])
  | [] => by simp [replaceAllFrom]
  | c :: rest => by
      by_cases h : c = t
      · subst h
        simp [replaceAllFrom, replaceAllFrom_single new c rest, List.isPrefixOf]
      · have h2 : ¬ t = c := fun e => h e.symm
        simp [replaceAllFrom, replaceAllFrom_single new t rest, List.isPrefixOf, h, h2]

theorem ReplaceAll_tab (p : GoString) :
    ReplaceAll p [9] (ascii "    ") = p.flatMap (fun b => if b = 9 then ascii "    " else [b]) :=
  replaceAllFrom_single _ 9 p

theorem flatMap_no_tab : ∀ p : GoString, 9 ∉ p →
    p.flatMap (fun b => if b = 9 then ascii "    " else [b]) = p
  | [], _ => by simp
  | c :: rest, h => by
      have hc : c ≠ 9 := fun e => h (by simp [e])
      have hr : 9 ∉ rest := fun e => h (by simp [e])
      simp only [List.flatMap_cons, hc, if_false, flatMap_no_tab rest hr]
      rfl

/-! ## C1: a paste and the entries already live -/

/-- C1, counterexample: the store holds a live entry `old` under `AAAAAAAA`;
a paste of `new` whose random bytes are all zero mints `AAAAAAAA` again, and
afterwards the id serves `new`: the live entry is overwritten. -/
theorem C1_live_entry_overwritten :
    cache.Get (serverWith 300 (ascii "AAAAAAAA") (ascii "old") 0).store (ascii "AAAAAAAA") 1
      = some (ascii "old") ∧
    RandomString 8 [] = some (ascii "AAAAAAAA") ∧
    (PasteHandler plainLib (serverWith 300 (ascii "AAAAAAAA") (ascii "old") 0)
        (pasteRequest (ascii "new")) [] 1).map
      (fun out => cache.Get out.2.store (ascii "AAAAAAAA") 1) = some (some (ascii "new")) := by
  decide

/-- C1, amended: a paste of a non-empty blob writes the minted id and nothing
else: every entry stored under another id is unchanged (same item, same
lookup result at every time), and the minted id now serves the new blob. -/
theorem C1_paste_keeps_other_ids (L : Lib) (s : Server) (r : Request) (rnd : List Nat)
    (now : Int) (a : GoString) (ha : L.Negotiate r.Accept AcceptedTypes = some a)
    (hb : r.blob ≠ []) :
    ∃ id resp s', RandomString 8 rnd = some id ∧
      PasteHandler L s r rnd now = some (resp, s') ∧
      (∀ k, k ≠ id → s'.store.items k = s.store.items k ∧
        ∀ q, cache.Get s'.store k q = cache.Get s.store k q) ∧
      cache.Get s'.store id now = some r.blob := by
  obtain ⟨id, resp, hid, _, hp, _⟩ := PasteHandler_stores L s r rnd now a ha hb
  refine ⟨id, resp, _, hid, hp, ?_, ?_⟩
  · intro k hk
    exact ⟨Set_items_other _ _ _ _ _ k hk, fun q => Get_Set_other _ _ _ _ _ q k hk⟩
  · exact Get_Set_same _ _ _ _ _ (fun h => by omega)

/-- C1, amended, at a concrete input. -/
theorem C1_paste_keeps_other_ids_witness :
    plainLib.Negotiate (pasteRequest (ascii "new")).Accept AcceptedTypes
      = some (ascii "text/plain") ∧
    (pasteRequest (ascii "new")).blob ≠ [] ∧
    ∃ id resp s', RandomString 8 [] = some id ∧
      PasteHandler plainLib (serverWith 300 (ascii "BBBBBBBB") (ascii "old") 0)
        (pasteRequest (ascii "new")) [] 1 = some (resp, s') ∧
      (∀ k, k ≠ id →
        s'.store.items k = (serverWith 300 (ascii "BBBBBBBB") (ascii "old") 0).store.items k ∧
        ∀ q, cache.Get s'.store k q
          = cache.Get (serverWith 300 (ascii "BBBBBBBB") (ascii "old") 0).store k q) ∧
      cache.Get s'.store id 1 = some (pasteRequest (ascii "new")).blob :=
  ⟨rfl, by decide,
    C1_paste_keeps_other_ids plainLib (serverWith 300 (ascii "BBBBBBBB") (ascii "old") 0)
      (pasteRequest (ascii "new")) [] 1 (ascii "text/plain") rfl (by decide)⟩

/-! ## C2: the alphabet of an id -/

/-- C2, the code at the failing inputs: with random bytes `0xFB 0xFF` the
one-character id is `+`, and with sixteen bytes `0xFF` the id minted by a
paste is `////////`; neither `+` nor `/` is a URL-safe character. -/
theorem C2_RandomString_not_urlSafe :
    RandomString 1 [251, 255] = some (ascii "+") ∧
    RandomString 8 (List.replicate 16 255) = some (ascii "////////") ∧
    urlSafe 43 = false ∧ urlSafe 47 = false ∧ ascii "+" = [43] ∧ ascii "/" = [47] := by
  decide

/-! ## C3: the length of an id -/

/-- C3, counterexample: for `length = 2^62` the product `length*2` wraps to
`-2^63` and `make` panics, whatever the runtime's allocation limit (here
`2^64`): the call returns no string. -/
theorem C3_RandomString_panics_at_two_pow_62 :
    (0 : Int) ≤ 2 ^ 62 ∧ wrapInt64 (2 ^ 62 * 2) = -2 ^ 63 ∧
    RandomStringInt (2 ^ 64) (2 ^ 62) [] = none := by
  have hw : wrapInt64 (2 ^ 62 * 2) = -2 ^ 63 := by
    unfold wrapInt64
    norm_num
  refine ⟨by norm_num, hw, ?_⟩
  unfold RandomStringInt
  rw [hw]
  have hm : makeBytes (2 ^ 64) (-2 ^ 63) = none := by
    unfold makeBytes
    rw [if_pos]
    left
    norm_num
  rw [hm]

/-- C3, amended: for every length `n` with `0 ≤ n` whose buffer `make` creates
(`n*2` below `2^63` and within the runtime's allocation limit) and every
random source, the base64 text of the `2n`-byte buffer has `4 * ceil(2n/3)`
characters, which is at least `n`, so the slice `se[0:n]` is in bounds:
`RandomString(n)` returns (no panic) a string of exactly `n` characters;
every paste of a non-empty blob stores it under an id of exactly 8
characters. -/
theorem C3_RandomString_length (maxAlloc : Nat) (n : Int) (rnd : List Nat)
    (h0 : 0 ≤ n) (h63 : n * 2 < 2 ^ 63) (hmax : n * 2 ≤ maxAlloc) :
    (EncodeToString (randRead (n.toNat * 2) rnd)).length = 4 * ((2 * n.toNat + 2) / 3) ∧
    n.toNat ≤ (EncodeToString (randRead (n.toNat * 2) rnd)).length ∧
    (∃ id, RandomStringInt maxAlloc n rnd = some id ∧ RandomString n.toNat rnd = some id ∧
      id.length = n.toNat) ∧
    (∀ (L : Lib) (s : Server) (r : Request) (now : Int) (a : GoString),
      L.Negotiate r.Accept AcceptedTypes = some a → r.blob ≠ [] →
      ∃ id resp, id.length = 8 ∧ RandomString 8 rnd = some id ∧
        PasteHandler L s r rnd now
          = some (resp, { store := cache.Set s.store id r.blob cache.DefaultExpiration now })) := by
  have hlen : (EncodeToString (randRead (n.toNat * 2) rnd)).length
      = 4 * ((2 * n.toNat + 2) / 3) := by
    unfold EncodeToString
    rw [Encode_length, randRead_length]
    omega
  have hw : wrapInt64 (n * 2) = n * 2 := by
    unfold wrapInt64
    have e63 : (2 : Int) ^ 63 = 9223372036854775808 := by norm_num
    have e64 : (2 : Int) ^ 64 = 18446744073709551616 := by norm_num
    rw [e63] at h63
    rw [e63, e64]
    omega
  have hm : makeBytes maxAlloc (n * 2) = some (n.toNat * 2) := by
    unfold makeBytes
    rw [if_neg]
    · congr 1
      omega
    · intro h
      rcases h with h | h <;> omega
  refine ⟨hlen, ?_, ?_, ?_⟩
  · rw [hlen]
    omega
  · obtain ⟨id, hid, hl⟩ := RandomString_length n.toNat rnd
    refine ⟨id, ?_, hid, hl⟩
    rw [← hid]
    unfold RandomStringInt
    rw [hw, hm]
    simp only [h0, if_true]
    rfl
  · intro L s r now a ha hb
    obtain ⟨id, resp, hid, hl, hp, _⟩ := PasteHandler_stores L s r rnd now a ha hb
    exact ⟨id, resp, hl, hid, hp⟩

/-- C3, amended, at a concrete input: length 8, an allocation limit of `2^48`
bytes and a random source of zero bytes. -/
theorem C3_RandomString_length_witness :
    (0 : Int) ≤ 8 ∧ (8 : Int) * 2 < 2 ^ 63 ∧ (8 : Int) * 2 ≤ ((2 ^ 48 : Nat) : Int) ∧
    ∃ id, RandomStringInt (2 ^ 48) 8 [] = some id ∧ RandomString (8 : Int).toNat [] = some id ∧
      id.length = (8 : Int).toNat :=
  ⟨by norm_num, by norm_num, by norm_num,
    (C3_RandomString_length (2 ^ 48) 8 [] (by norm_num) (by norm_num) (by norm_num)).2.2.1⟩

/-! ## C4: paste, then download -/

/-- C4, counterexample: `hello world` is pasted and stored under `AAAAAAAA`;
a download request for that id carrying `Range: bytes=0-0` is answered with
status 206, `Content-Length: 1` and the one-byte body `h`, not the blob. -/
theorem C4_range_request_gets_one_byte :
    RandomString 8 [] = some (ascii "AAAAAAAA") ∧
    (PasteHandler plainLib (NewServer 300) (pasteRequest (ascii "hello world")) [] 7).map
      (fun out => (DownloadHandler plainLib out.2
        (rangeRequest (ascii "AAAAAAAA") (ascii "bytes=0-0")) 7).1)
      = some (Response.served 206
          [("Content-Disposition", ascii "attachment; filename=AAAAAAAA"),
           ("Content-Type", ascii "application/octet-stream"),
           ("Last-Modified", ascii "Thu, 01 Jan 1970 00:00:00 GMT"),
           ("Content-Range", ascii "bytes 0-0/11"),
           ("Accept-Ranges", ascii "bytes"),
           ("Content-Length", ascii "1")]
          (ascii "h")) ∧
    ascii "h" ≠ ascii "hello world" := by
  decide

/-- C4, amended: after a paste of a non-empty blob, a download of the minted
id made before the entry's time to live has run out, by a request that is
not `HEAD` and carries no `Range`, `If-Match`, `If-Unmodified-Since`,
`If-None-Match` or `If-Modified-Since` header, finds the entry and is
answered with status 200, a body equal to the submitted blob and
`Content-Length` the decimal length of the blob. -/
theorem C4_paste_then_download (L : Lib) (s : Server) (r : Request) (rnd : List Nat)
    (now q : Int) (a : GoString) (ha : L.Negotiate r.Accept AcceptedTypes = some a)
    (hb : r.blob ≠ [])
    (hq : 0 < s.store.defaultExpiration → q ≤ now + s.store.defaultExpiration) :
    ∃ id resp s', RandomString 8 rnd = some id ∧
      PasteHandler L s r rnd now = some (resp, s') ∧
      cache.Get s'.store id q = some r.blob ∧
      ∀ r2 : Request, r2.uuid = id → r2.Method ≠ ascii "HEAD" → r2.Range = [] →
        r2.IfMatch = [] → r2.IfUnmodifiedSince = [] → r2.IfNoneMatch = [] →
        r2.IfModifiedSince = [] →
        DownloadHandler L s' r2 q =
          (Response.served 200
            ([("Content-Disposition", ascii "attachment; filename=" ++ id),
              ("Content-Type", ascii "application/octet-stream")]
              ++ (if q = 0 then [] else [("Last-Modified", L.FormatTime q)])
              ++ [("Accept-Ranges", ascii "bytes"),
                  ("Content-Length", FormatInt r.blob.length)])
            r.blob, s') := by
  obtain ⟨id, resp, hid, hl, hp, _⟩ := PasteHandler_stores L s r rnd now a ha hb
  have hg : cache.Get (cache.Set s.store id r.blob cache.DefaultExpiration now) id q
      = some r.blob := Get_Set_same _ _ _ _ _ hq
  refine ⟨id, resp, _, hid, hp, hg, ?_⟩
  intro r2 h2 hhead hrange him hius hinm hims
  have hne : ¬ id = [] := by
    intro h
    rw [h] at hl
    simp at hl
  have hpre : checkPreconditions L r2 q = Preconditions.proceed [] := by
    simp [checkPreconditions, checkIfMatch, checkIfUnmodifiedSince, checkIfNoneMatch,
      checkIfModifiedSince, him, hius, hinm, hims, hrange]
  have hsend : ∀ h : Header, sendRanges r2 h r.blob []
      = Response.served 200
          (setHeader (setHeader h "Accept-Ranges" (ascii "bytes")) "Content-Length"
            (FormatInt r.blob.length)) r.blob := by
    intro h
    simp [sendRanges, sumRangesSize, hhead]
  simp only [DownloadHandler, h2, hne, if_false, hg, ServeContent, hpre, parseRange, if_true,
    hsend]
  by_cases hz : q = 0
  · simp [hz, isZeroTime, setHeader]
  · simp [hz, isZeroTime, setHeader]

/-- C4, amended, at a concrete input: paste `hello world`, then a plain `GET`
download at the same instant. -/
theorem C4_paste_then_download_witness :
    plainLib.Negotiate (pasteRequest (ascii "hello world")).Accept AcceptedTypes
      = some (ascii "text/plain") ∧
    (pasteRequest (ascii "hello world")).blob ≠ [] ∧
    ∃ id resp s', RandomString 8 [1, 2, 3, 4, 5, 6] = some id ∧
      PasteHandler plainLib (NewServer 300) (pasteRequest (ascii "hello world"))
        [1, 2, 3, 4, 5, 6] 7 = some (resp, s') ∧
      cache.Get s'.store id 7 = some (pasteRequest (ascii "hello world")).blob ∧
      DownloadHandler plainLib s' (idRequest id) 7 =
        (Response.served 200
          ([("Content-Disposition", ascii "attachment; filename=" ++ id),
            ("Content-Type", ascii "application/octet-stream")]
            ++ (if (7 : Int) = 0 then [] else [("Last-Modified", plainLib.FormatTime 7)])
            ++ [("Accept-Ranges", ascii "bytes"),
                ("Content-Length", FormatInt (pasteRequest (ascii "hello world")).blob.length)])
          (pasteRequest (ascii "hello world")).blob, s') := by
  refine ⟨rfl, by decide, ?_⟩
  obtain ⟨id, resp, s', h1, h2, h3, h4⟩ :=
    C4_paste_then_download plainLib (NewServer 300) (pasteRequest (ascii "hello world"))
      [1, 2, 3, 4, 5, 6] 7 7 (ascii "text/plain") rfl (by decide) (fun _ => by decide)
  have hget : ascii "GET" ≠ ascii "HEAD" := by decide
  exact ⟨id, resp, s', h1, h2, h3, h4 (idRequest id) rfl hget rfl rfl rfl rfl rfl⟩

/-! ## C5: the plain-text view -/

/-- C5, counterexample: the live entry under `AAAAAAAA` is the single byte
TAB; the plain-text view of it writes four spaces, not the stored payload. -/
theorem C5_view_rewrites_tab :
    cache.Get (serverWith 300 (ascii "AAAAAAAA") [9] 0).store (ascii "AAAAAAAA") 1 = some [9] ∧
    (ViewHandler plainLib (serverWith 300 (ascii "AAAAAAAA") [9] 0)
        (idRequest (ascii "AAAAAAAA")) 1).1 = Response.write [32, 32, 32, 32] ∧
    Response.write [32, 32, 32, 32] ≠ Response.write [9] := by
  decide

/-- C5, amended: for a live entry with payload `p` and a negotiation that
settles on anything but `text/html` (so on `text/plain`), the view writes
`p` with every TAB byte replaced by four spaces, and leaves the store alone;
the body is `p` itself exactly when that rewriting changes nothing, which is
the case for every payload without a TAB. -/
theorem C5_view_plain_body (L : Lib) (s : Server) (r : Request) (now : Int)
    (a p : GoString) (ha : L.Negotiate r.Accept AcceptedTypes = some a)
    (hplain : a ≠ ascii "text/html") (hid : r.uuid ≠ [])
    (hlive : cache.Get s.store r.uuid now = some p) :
    ViewHandler L s r now
      = (Response.write (p.flatMap (fun b => if b = 9 then [32, 32, 32, 32] else [b])), s) ∧
    (9 ∉ p → ViewHandler L s r now = (Response.write p, s)) := by
  have h1 : ViewHandler L s r now
      = (Response.write (p.flatMap (fun b => if b = 9 then [32, 32, 32, 32] else [b])), s) := by
    simp only [ViewHandler, ha, hid, if_false, hlive, hplain, ReplaceAll_tab]
    rfl
  refine ⟨h1, fun h => ?_⟩
  rw [h1]
  have := flatMap_no_tab p h
  have e : ascii "    " = [32, 32, 32, 32] := by decide
  rw [e] at this
  rw [this]

/-- C5, amended, at a concrete input: the payload `a<TAB>b`. -/
theorem C5_view_plain_body_witness :
    plainLib.Negotiate (idRequest (ascii "AAAAAAAA")).Accept AcceptedTypes
      = some (ascii "text/plain") ∧
    ascii "text/plain" ≠ ascii "text/html" ∧ (idRequest (ascii "AAAAAAAA")).uuid ≠ [] ∧
    cache.Get (serverWith 300 (ascii "AAAAAAAA") [97, 9, 98] 0).store
      (idRequest (ascii "AAAAAAAA")).uuid 1 = some [97, 9, 98] ∧
    (ViewHandler plainLib (serverWith 300 (ascii "AAAAAAAA") [97, 9, 98] 0)
        (idRequest (ascii "AAAAAAAA")) 1
      = (Response.write
          ([97, 9, 98].flatMap (fun b => if b = 9 then [32, 32, 32, 32] else [b])),
        serverWith 300 (ascii "AAAAAAAA") [97, 9, 98] 0) ∧
      (9 ∉ [97, 9, 98] →
        ViewHandler plainLib (serverWith 300 (ascii "AAAAAAAA") [97, 9, 98] 0)
          (idRequest (ascii "AAAAAAAA")) 1
        = (Response.write [97, 9, 98], serverWith 300 (ascii "AAAAAAAA") [97, 9, 98] 0))) :=
  ⟨rfl, by decide, by decide, by decide,
    C5_view_plain_body plainLib (serverWith 300 (ascii "AAAAAAAA") [97, 9, 98] 0)
      (idRequest (ascii "AAAAAAAA")) 1 (ascii "text/plain") [97, 9, 98] rfl (by decide)
      (by decide) (by decide)⟩

/-! ## C6: deleting twice -/

/-- C6: with a successful negotiation and a non-empty id, two deletes in a
row at times `q1 ≤ q2`: when the id is live the first answers 200 `Deleted`
and removes that entry and no other, otherwise it answers 404 `Not Found`
and leaves the store unchanged; the second always answers 404 `Not Found`
and leaves the store unchanged; from the first delete on, a view and a
download of the id answer 404 `Not Found`. -/
theorem C6_delete_twice (L : Lib) (s : Server) (r : Request) (q1 q2 q3 : Int) (a : GoString)
    (ha : L.Negotiate r.Accept AcceptedTypes = some a) (hid : r.uuid ≠ [])
    (h12 : q1 ≤ q2) (h13 : q1 ≤ q3) :
    ((∃ p, cache.Get s.store r.uuid q1 = some p) →
      (DeleteHandler L s r q1).1 = Response.error "Deleted" 200 ∧
      (DeleteHandler L s r q1).2.store.items r.uuid = none ∧
      ∀ k, k ≠ r.uuid → (DeleteHandler L s r q1).2.store.items k = s.store.items k) ∧
    (cache.Get s.store r.uuid q1 = none →
      DeleteHandler L s r q1 = (Response.error "Not Found" 404, s)) ∧
    DeleteHandler L (DeleteHandler L s r q1).2 r q2
      = (Response.error "Not Found" 404, (DeleteHandler L s r q1).2) ∧
    (ViewHandler L (DeleteHandler L s r q1).2 r q3).1 = Response.error "Not Found" 404 ∧
    (DownloadHandler L (DeleteHandler L s r q1).2 r q3).1 = Response.error "Not Found" 404 := by
  have key : ∀ q, q1 ≤ q → cache.Get (DeleteHandler L s r q1).2.store r.uuid q = none := by
    intro q hq
    cases hg : cache.Get s.store r.uuid q1 with
    | none =>
      simp only [DeleteHandler, ha, hid, if_false, hg]
      exact Get_none_mono _ _ _ _ hq hg
    | some p =>
      simp only [DeleteHandler, ha, hid, if_false, hg]
      exact Get_Delete_same _ _ _
  refine ⟨?_, ?_, ?_, ?_, ?_⟩
  · rintro ⟨p, hp⟩
    simp only [DeleteHandler, ha, hid, if_false, hp, cache.Delete, if_true, true_and]
    intro k hk
    simp [hk]
  · intro hn
    simp only [DeleteHandler, ha, hid, if_false, hn]
  · have := key q2 h12
    generalize (DeleteHandler L s r q1).2 = s1 at this ⊢
    simp only [DeleteHandler, ha, hid, if_false, this]
  · have := key q3 h13
    generalize (DeleteHandler L s r q1).2 = s1 at this ⊢
    simp only [ViewHandler, ha, hid, if_false, this]
  · have := key q3 h13
    generalize (DeleteHandler L s r q1).2 = s1 at this ⊢
    simp only [DownloadHandler, hid, if_false, this]

/-- C6 at a concrete input: the live entry `AAAAAAAA` deleted at times 1 and 2. -/
theorem C6_delete_twice_witness :
    (DeleteHandler plainLib (serverWith 300 (ascii "AAAAAAAA") (ascii "x") 0)
        (idRequest (ascii "AAAAAAAA")) 1).1 = Response.error "Deleted" 200 ∧
    (DeleteHandler plainLib
        (DeleteHandler plainLib (serverWith 300 (ascii "AAAAAAAA") (ascii "x") 0)
          (idRequest (ascii "AAAAAAAA")) 1).2
        (idRequest (ascii "AAAAAAAA")) 2).1 = Response.error "Not Found" 404 :=
  ⟨((C6_delete_twice plainLib (serverWith 300 (ascii "AAAAAAAA") (ascii "x") 0)
        (idRequest (ascii "AAAAAAAA")) 1 2 3 (ascii "text/plain") rfl (by decide)
        (by decide) (by decide)).1 ⟨ascii "x", by decide⟩).1,
    congrArg Prod.fst
      (C6_delete_twice plainLib (serverWith 300 (ascii "AAAAAAAA") (ascii "x") 0)
        (idRequest (ascii "AAAAAAAA")) 1 2 3 (ascii "text/plain") rfl (by decide)
        (by decide) (by decide)).2.2.1⟩

/-! ## C7: empty blobs -/

/-- C7: when negotiation succeeds, the paste answers 400 `Bad Request` with
the store unchanged exactly when the blob is empty; for a non-empty blob the
answer is a redirect or a written URL, the minted id holds the blob, and
every other id holds what it held before. -/
theorem C7_empty_blob_rejected (L : Lib) (s : Server) (r : Request) (rnd : List Nat)
    (now : Int) (a : GoString) (ha : L.Negotiate r.Accept AcceptedTypes = some a) :
    (PasteHandler L s r rnd now = some (Response.error "Bad Request" 400, s)
      ↔ r.blob.length = 0) ∧
    ((∃ s', PasteHandler L s r rnd now = some (Response.error "Bad Request" 400, s'))
      ↔ r.blob.length = 0) ∧
    (0 < r.blob.length →
      ∃ id resp s', RandomString 8 rnd = some id ∧
        PasteHandler L s r rnd now = some (resp, s') ∧
        (∃ e, s'.store.items id = some { Object := r.blob, Expiration := e }) ∧
        ∀ k, k ≠ id → s'.store.items k = s.store.items k) := by
  have hempty : r.blob.length = 0 →
      PasteHandler L s r rnd now = some (Response.error "Bad Request" 400, s) := by
    intro h
    simp only [PasteHandler, ha, h, if_true]
  have hfull : r.blob.length ≠ 0 →
      ∀ s', PasteHandler L s r rnd now ≠ some (Response.error "Bad Request" 400, s') := by
    intro h s' he
    have hb : r.blob ≠ [] := fun e => h (by simp [e])
    obtain ⟨id, resp, _, _, hp, hr⟩ := PasteHandler_stores L s r rnd now a ha hb
    rw [hp] at he
    have h1 : resp = Response.error "Bad Request" 400 := by
      injection he with he
      exact congrArg Prod.fst he
    rcases hr with hr | hr <;> rw [hr] at h1 <;> cases h1
  refine ⟨⟨fun h => ?_, hempty⟩, ⟨fun h => ?_, fun h => ⟨s, hempty h⟩⟩, fun h => ?_⟩
  · by_contra hn
    exact hfull hn s h
  · by_contra hn
    obtain ⟨s', hs'⟩ := h
    exact hfull hn s' hs'
  · have hb : r.blob ≠ [] := fun e => by simp [e] at h
    obtain ⟨id, resp, hid, _, hp, _⟩ := PasteHandler_stores L s r rnd now a ha hb
    refine ⟨id, resp, _, hid, hp, ⟨_, Set_items_same _ _ _ _ _⟩, ?_⟩
    intro k hk
    exact Set_items_other _ _ _ _ _ k hk

/-- C7 at a concrete input: an empty blob sent to a fresh server. -/
theorem C7_empty_blob_rejected_witness :
    plainLib.Negotiate (pasteRequest []).Accept AcceptedTypes = some (ascii "text/plain") ∧
    (PasteHandler plainLib (NewServer 300) (pasteRequest []) [] 5
        = some (Response.error "Bad Request" 400, NewServer 300)
      ↔ (pasteRequest []).blob.length = 0) :=
  ⟨rfl, (C7_empty_blob_rejected plainLib (NewServer 300) (pasteRequest []) [] 5
    (ascii "text/plain") rfl).1⟩

/-! ## C8: time to live -/

/-- C8, counterexample: expiry 10, a paste at time 100, a lookup at time
110 = 100 + 10: the entry is still found (the delete handler finds and
deletes it); and with expiry 0 the entry pasted at time 100 is still found
at time 100000. -/
theorem C8_found_at_expiry_instant :
    (100 : Int) + 10 ≤ 110 ∧
    RandomString 8 [] = some (ascii "AAAAAAAA") ∧
    (PasteHandler plainLib (NewServer 10) (pasteRequest (ascii "x")) [] 100).map
      (fun out => cache.Get out.2.store (ascii "AAAAAAAA") 110) = some (some (ascii "x")) ∧
    (PasteHandler plainLib (NewServer 10) (pasteRequest (ascii "x")) [] 100).map
      (fun out => (DeleteHandler plainLib out.2 (idRequest (ascii "AAAAAAAA")) 110).1)
      = some (Response.error "Deleted" 200) ∧
    (100 : Int) + 0 ≤ 100000 ∧
    (PasteHandler plainLib (NewServer 0) (pasteRequest (ascii "x")) [] 100).map
      (fun out => cache.Get out.2.store (ascii "AAAAAAAA") 100000) = some (some (ascii "x")) := by
  decide

/-- C8, amended: with a positive store-wide expiry `d` (the one given to
`NewServer`, whose sweep interval is `2 d`), an entry pasted at time `t ≥ 0`
expires at `t + d`; a lookup at time `q` finds it for every `q ≤ t + d` and
does not find it for every `q > t + d`, whether or not a sweep ran before
the lookup; a sweep at a time `q ≤ t + d` does not remove it. -/
theorem C8_ttl (L : Lib) (s : Server) (r : Request) (rnd : List Nat) (t d : Int)
    (a : GoString) (ha : L.Negotiate r.Accept AcceptedTypes = some a) (hb : r.blob ≠ [])
    (hd : 0 < d) (ht : 0 ≤ t)
    (hs : s.store.defaultExpiration = (NewServer d).store.defaultExpiration) :
    (NewServer d).store.defaultExpiration = d ∧ (NewServer d).store.cleanupInterval = d * 2 ∧
    ∃ id resp s', RandomString 8 rnd = some id ∧
      PasteHandler L s r rnd t = some (resp, s') ∧
      s'.store.defaultExpiration = d ∧
      s'.store.items id = some { Object := r.blob, Expiration := t + d } ∧
      (∀ q, q ≤ t + d → cache.Get s'.store id q = some r.blob) ∧
      (∀ q, t + d < q → cache.Get s'.store id q = none) ∧
      (∀ q0 q, q0 ≤ q →
        cache.Get (cache.DeleteExpired s'.store q0) id q = cache.Get s'.store id q) ∧
      (∀ q0, q0 ≤ t + d → (cache.DeleteExpired s'.store q0).items id = s'.store.items id) := by
  have hne : d ≠ 0 := by omega
  have hnew : (NewServer d).store.defaultExpiration = d := by
    simp [NewServer, cache.New, hne]
  rw [hnew] at hs
  refine ⟨hnew, rfl, ?_⟩
  obtain ⟨id, resp, hid, _, hp, _⟩ := PasteHandler_stores L s r rnd t a ha hb
  have hitem : (cache.Set s.store id r.blob cache.DefaultExpiration t).items id
      = some { Object := r.blob, Expiration := t + d } := by
    rw [Set_items_same]
    simp [hs, hd]
  refine ⟨id, resp, _, hid, hp, hs, hitem, ?_, ?_, ?_, ?_⟩
  · intro q hq
    simp only [cache.Get, hitem]
    rw [if_neg]
    intro h
    omega
  · intro q hq
    simp only [cache.Get, hitem]
    rw [if_pos]
    exact ⟨by omega, by omega⟩
  · intro q0 q hq
    simp only [cache.Get, cache.DeleteExpired, hitem]
    by_cases h0 : t + d > 0 ∧ q0 > t + d
    · have h1 : t + d > 0 ∧ q > t + d := ⟨h0.1, by omega⟩
      simp [h0, h1]
    · simp only [h0, if_false]
  · intro q0 hq
    simp only [cache.DeleteExpired, hitem]
    rw [if_neg]
    intro h
    omega

/-- C8, amended, at a concrete input: expiry 10, a paste at time 100. -/
theorem C8_ttl_witness :
    plainLib.Negotiate (pasteRequest (ascii "x")).Accept AcceptedTypes
      = some (ascii "text/plain") ∧
    (pasteRequest (ascii "x")).blob ≠ [] ∧ (0 : Int) < 10 ∧ (0 : Int) ≤ 100 ∧
    ∃ id resp s', RandomString 8 [] = some id ∧
      PasteHandler plainLib (NewServer 10) (pasteRequest (ascii "x")) [] 100 = some (resp, s') ∧
      s'.store.defaultExpiration = 10 ∧
      s'.store.items id = some { Object := (pasteRequest (ascii "x")).blob, Expiration := 100 + 10 } ∧
      (∀ q, q ≤ 100 + 10 → cache.Get s'.store id q = some (pasteRequest (ascii "x")).blob) ∧
      (∀ q, 100 + 10 < q → cache.Get s'.store id q = none) ∧
      (∀ q0 q, q0 ≤ q →
        cache.Get (cache.DeleteExpired s'.store q0) id q = cache.Get s'.store id q) ∧
      (∀ q0, q0 ≤ 100 + 10 → (cache.DeleteExpired s'.store q0).items id = s'.store.items id) :=
  ⟨rfl, by decide, by decide, by decide,
    (C8_ttl plainLib (NewServer 10) (pasteRequest (ascii "x")) [] 100 10 (ascii "text/plain")
      rfl (by decide) (by decide) (by decide) rfl).2.2⟩

/-! ## C9: the client's `-insecure` flag -/

/-- C9, the code at the failing input: the transport that `Paste` builds
skips certificate verification exactly when `insecure` is false; with the
flag's default, `false`, verification is skipped. -/
theorem C9_InsecureSkipVerify_inverted :
    (∀ (url : GoString) (insecure : Bool),
      (Client.PasteTLSClientConfig (NewClient url insecure)).InsecureSkipVerify = !insecure) ∧
    (Client.PasteTLSClientConfig
      (NewClient (ascii "http://localhost:8000") defaultInsecure)).InsecureSkipVerify = true :=
  ⟨fun _ _ => rfl, rfl⟩

/-! ## Counting buffers -/

theorem encodeChar_eq (v : Nat) : encodeChar v = enc (v % 64) := by
  unfold encodeChar enc
  have : v &&& 0x3F = v % 64 := Nat.and_pow_two_sub_one_eq_mod v 6
  rw [this]

theorem lor3 (a b c : Nat) (hb : b < 256) (hc : c < 256) :
    a <<< 16 ||| b <<< 8 ||| c = a * 65536 + b * 256 + c := by
  have h1 : a <<< 16 ||| b <<< 8 = (a * 256 + b) <<< 8 := by
    rw [Nat.shiftLeft_eq, Nat.shiftLeft_eq, Nat.shiftLeft_eq]
    have e : a * 2 ^ 16 = 2 ^ 16 * a := Nat.mul_comm _ _
    have hlt : b * 2 ^ 8 < 2 ^ 16 := by omega
    rw [e, ← Nat.mul_add_lt_is_or hlt]
    omega
  rw [h1, Nat.shiftLeft_eq]
  have e : (a * 256 + b) * 2 ^ 8 = 2 ^ 8 * (a * 256 + b) := Nat.mul_comm _ _
  have hlt : c < 2 ^ 8 := by omega
  rw [e, ← Nat.mul_add_lt_is_or hlt]
  omega

theorem lor2 (a b : Nat) (hb : b < 256) :
    a <<< 16 ||| b <<< 8 = a * 65536 + b * 256 := by
  have := lor3 a b 0 hb (by omega)
  simpa using this

theorem Encode_cons3 (a b c : Nat) (rest : GoString) (ha : a < 256) (hb : b < 256)
    (hc : c < 256) :
    Encode (a :: b :: c :: rest)
      = [enc (a / 4), enc (a % 4 * 16 + b / 16), enc (b % 16 * 4 + c / 64), enc (c % 64)]
        ++ Encode rest := by
  simp only [Encode, lor3 a b c hb hc, encodeChar_eq, Nat.shiftRight_eq_div_pow,
    List.cons_append, List.nil_append]
  have e1 : (a * 65536 + b * 256 + c) / 2 ^ 18 % 64 = a / 4 := by omega
  have e2 : (a * 65536 + b * 256 + c) / 2 ^ 12 % 64 = a % 4 * 16 + b / 16 := by omega
  have e3 : (a * 65536 + b * 256 + c) / 2 ^ 6 % 64 = b % 16 * 4 + c / 64 := by omega
  have e4 : (a * 65536 + b * 256 + c) % 64 = c % 64 := by omega
  rw [e1, e2, e3, e4]

theorem Encode_pair (a b : Nat) (ha : a < 256) (hb : b < 256) :
    Encode [a, b] = [enc (a / 4), enc (a % 4 * 16 + b / 16), enc (b % 16 * 4), StdPadding] := by
  simp only [Encode, lor2 a b hb, encodeChar_eq, Nat.shiftRight_eq_div_pow]
  have e1 : (a * 65536 + b * 256) / 2 ^ 18 % 64 = a / 4 := by omega
  have e2 : (a * 65536 + b * 256) / 2 ^ 12 % 64 = a % 4 * 16 + b / 16 := by omega
  have e3 : (a * 65536 + b * 256) / 2 ^ 6 % 64 = b % 16 * 4 := by omega
  rw [e1, e2, e3]

theorem enc_injective : ∀ i : Fin 64, ∀ j : Fin 64, enc i.val = enc j.val → i = j := by
  decide

theorem mem_encodeStd_iff (x : Nat) : x ∈ encodeStd ↔ ∃ j : Fin 64, x = enc j.val := by
  constructor
  · intro h
    obtain ⟨i, hi, rfl⟩ := List.getElem_of_mem h
    have hl : encodeStd.length = 64 := by decide
    refine ⟨⟨i, by omega⟩, ?_⟩
    simp [enc, List.getD_eq_getElem, hi]
  · rintro ⟨j, rfl⟩
    revert j
    decide

theorem StdPadding_not_mem : StdPadding ∉ encodeStd := by decide

theorem sum_ofFn_succ {q m : Nat} (F : List Nat → Nat) :
    ∑ f : Fin (m + 1) → Fin q, F (List.ofFn (fun i => (f i).val))
      = ∑ a : Fin q, ∑ g : Fin m → Fin q, F (a.val :: List.ofFn (fun i => (g i).val)) := by
  rw [← (Fin.consEquiv (fun _ => Fin q)).sum_comp, Fintype.sum_prod_type]
  refine Finset.sum_congr rfl (fun a _ => Finset.sum_congr rfl (fun g _ => ?_))
  simp [Fin.consEquiv, List.ofFn_succ]

theorem sum_ofFn_zero {q : Nat} (F : List Nat → Nat) :
    ∑ f : Fin 0 → Fin q, F (List.ofFn (fun i => (f i).val)) = F [] := by
  simp

theorem sum_enc_eq (x : Nat) (hx : x ∈ encodeStd) (c : Nat) :
    ∑ y : Fin 64, (if enc y.val = x then c else 0) = c := by
  obtain ⟨j, rfl⟩ := (mem_encodeStd_iff x).1 hx
  have : ∀ y : Fin 64, (if enc y.val = enc j.val then c else 0) = if y = j then c else 0 := by
    intro y
    by_cases h : y = j
    · simp [h]
    · have : ¬ enc y.val = enc j.val := fun e => h (enc_injective y j e)
      simp [h, this]
  simp only [this]
  simp

/-- Strings of `L` characters whose first `k` are prescribed. -/
theorem count_sextets : ∀ (L k : Nat) (s : GoString), k ≤ L → s.length = k →
    (∀ c ∈ s, c ∈ encodeStd) →
    ∑ y : Fin L → Fin 64,
      (if ((List.ofFn (fun i => (y i).val)).map enc).take k = s then 1 else 0) = 64 ^ (L - k) := by
  intro L
  induction L with
  | zero =>
    intro k s hk hs _
    have hk0 : k = 0 := by omega
    subst hk0
    have : s = [] := List.length_eq_zero.mp hs
    subst this
    simp
  | succ L ih =>
    intro k s hk hs hmem
    rw [sum_ofFn_succ (fun l => if (l.map enc).take k = s then 1 else 0)]
    cases k with
    | zero =>
      have : s = [] := List.length_eq_zero.mp hs
      subst this
      simp [pow_succ, Nat.mul_comm]
    | succ k =>
      match s, hs with
      | x :: s, hs =>
        have hx : x ∈ encodeStd := hmem x (by simp)
        have hs2 : s.length = k := by simpa using hs
        have hmem2 : ∀ c ∈ s, c ∈ encodeStd := fun c hc => hmem c (by simp [hc])
        have key : ∀ (a : Fin 64) (g : Fin L → Fin 64),
            (if ((a.val :: List.ofFn (fun i => (g i).val)).map enc).take (k + 1) = x :: s
              then 1 else 0)
            = if enc a.val = x then
                (if ((List.ofFn (fun i => (g i).val)).map enc).take k = s then 1 else 0)
              else 0 := by
          intro a g
          simp only [List.map_cons, List.take_succ_cons, List.cons.injEq]
          by_cases h : enc a.val = x <;> simp [h]
        simp only [key]
        have : ∀ a : Fin 64,
            (∑ g : Fin L → Fin 64, if enc a.val = x then
                (if ((List.ofFn (fun i => (g i).val)).map enc).take k = s then 1 else 0)
              else 0)
            = if enc a.val = x then 64 ^ (L - k) else 0 := by
          intro a
          by_cases h : enc a.val = x
          · simp only [h, if_true]
            exact ih k s (by omega) hs2 hmem2
          · simp [h]
        simp only [this]
        rw [sum_enc_eq x hx]
        congr 1
        omega

theorem sextetsOf_injective : Function.Injective sextetsOf := by
  rintro ⟨a, b, c⟩ ⟨a2, b2, c2⟩ h
  have h0 := congrArg (fun f => (f 0).val) h
  have h1 := congrArg (fun f => (f 1).val) h
  have h2 := congrArg (fun f => (f 2).val) h
  have h3 := congrArg (fun f => (f 3).val) h
  simp [sextetsOf] at h0 h1 h2 h3
  have ha := a.isLt
  have hb := b.isLt
  have hc := c.isLt
  have ha2 := a2.isLt
  have hb2 := b2.isLt
  have hc2 := c2.isLt
  have ea : a.val = a2.val := by omega
  have eb : b.val = b2.val := by omega
  have ec : c.val = c2.val := by omega
  rw [Fin.ext ea, Fin.ext eb, Fin.ext ec]

theorem sextetsOf_bijective : Function.Bijective sextetsOf := by
  rw [Fintype.bijective_iff_injective_and_card]
  refine ⟨sextetsOf_injective, ?_⟩
  rw [Fintype.card_prod, Fintype.card_prod, Fintype.card_fun, Fintype.card_fin,
    Fintype.card_fin, Fintype.card_fin]
  norm_num

theorem sextetsOf_list (a b c : Fin 256) :
    (List.ofFn (fun i => (sextetsOf (a, b, c) i).val)).map enc
      = [enc (a.val / 4), enc (a.val % 4 * 16 + b.val / 16),
          enc (b.val % 16 * 4 + c.val / 64), enc (c.val % 64)] := by
  simp [List.ofFn_succ, sextetsOf]

theorem take_min4 (k : Nat) (l : List Nat) (hl : l.length = 4) :
    l.take k = l.take (min k 4) := by
  by_cases h : k ≤ 4
  · rw [Nat.min_eq_left h]
  · have h4 : 4 ≤ k := by omega
    have hk : l.length ≤ k := by omega
    have hl4 : l.length ≤ 4 := by omega
    rw [Nat.min_eq_right h4, List.take_of_length_le hk, List.take_of_length_le hl4]

/-- Byte triples whose first `k` characters are prescribed. -/
theorem count_triples (k : Nat) (s : GoString) (hs : s.length = min k 4)
    (hmem : ∀ c ∈ s, c ∈ encodeStd) :
    ∑ a : Fin 256, ∑ b : Fin 256, ∑ c : Fin 256,
      (if [enc (a.val / 4), enc (a.val % 4 * 16 + b.val / 16),
            enc (b.val % 16 * 4 + c.val / 64), enc (c.val % 64)].take k = s then 1 else 0)
      = 64 ^ (4 - min k 4) := by
  have hcount := count_sextets 4 (min k 4) s (by omega) hs hmem
  rw [← hcount]
  rw [← Fintype.sum_bijective sextetsOf sextetsOf_bijective
    (fun t : Fin 256 × Fin 256 × Fin 256 =>
      if [enc (t.1.val / 4), enc (t.1.val % 4 * 16 + t.2.1.val / 16),
            enc (t.2.1.val % 16 * 4 + t.2.2.val / 64), enc (t.2.2.val % 64)].take k = s
      then 1 else 0)]
  · rw [Fintype.sum_prod_type]
    refine Finset.sum_congr rfl (fun a _ => ?_)
    rw [Fintype.sum_prod_type]
  · rintro ⟨a, b, c⟩
    rw [sextetsOf_list]
    rw [take_min4 k _ (by simp)]

theorem sum_ofFn_succ3 {q m : Nat} (F : List Nat → Nat) :
    ∑ f : Fin (m + 3) → Fin q, F (List.ofFn (fun i => (f i).val))
      = ∑ a : Fin q, ∑ b : Fin q, ∑ c : Fin q, ∑ g : Fin m → Fin q,
          F (a.val :: b.val :: c.val :: List.ofFn (fun i => (g i).val)) := by
  rw [sum_ofFn_succ F]
  refine Finset.sum_congr rfl (fun a _ => ?_)
  rw [sum_ofFn_succ (fun l => F (a.val :: l))]
  refine Finset.sum_congr rfl (fun b _ => ?_)
  rw [sum_ofFn_succ (fun l => F (a.val :: b.val :: l))]

theorem count_pairs (x : Nat) (hx : x ∈ encodeStd) :
    ∑ a : Fin 256, ∑ _b : Fin 256, (if enc (a.val / 4) = x then 1 else 0) = 1024 := by
  have h := count_triples 1 [x] (by simp) (by simpa using hx)
  simp only [List.take_succ_cons, List.take_zero, List.cons.injEq, and_true] at h
  have h2 : ∀ a : Fin 256,
      (∑ _c : Fin 256, if enc (a.val / 4) = x then 1 else 0)
        = 256 * (if enc (a.val / 4) = x then 1 else 0) := by
    intro a
    rw [Finset.sum_const, Finset.card_univ, Fintype.card_fin, smul_eq_mul]
  simp only [h2, ← Finset.mul_sum] at h
  have e : (64 : Nat) ^ (4 - min 1 4) = 256 * 1024 := by norm_num
  rw [e] at h
  simp only [h2, ← Finset.mul_sum]
  omega

theorem append_eq_split (A B id : List Nat) (h : A.length = min id.length 4) :
    A ++ B = id ↔ A = id.take 4 ∧ B = id.drop 4 := by
  constructor
  · intro e
    have e2 : A ++ B = id.take 4 ++ id.drop 4 := by rw [List.take_append_drop]; exact e
    have hl : A.length = (id.take 4).length := by
      rw [List.length_take, h, Nat.min_comm]
    exact List.append_inj e2 hl
  · rintro ⟨rfl, rfl⟩
    exact List.take_append_drop 4 id

theorem pow_two_eight (m : Nat) : 256 ^ m = 2 ^ (8 * m) := by
  rw [pow_mul]
  norm_num

theorem pow_two_six (m : Nat) : 64 ^ m = 2 ^ (6 * m) := by
  rw [pow_mul]
  norm_num

/-- Buffers of `m` bytes whose encoding starts with a prescribed `n`-character
string over the alphabet: there are `2 ^ (8 m - 6 n)` of them. -/
theorem count_buffers : ∀ (n m : Nat) (id : GoString), 2 * n ≤ m → id.length = n →
    (∀ c ∈ id, c ∈ encodeStd) →
    ∑ f : Fin m → Fin 256, (if (Encode (bufferOf f)).take n = id then 1 else 0)
      = 2 ^ (8 * m - 6 * n) := by
  intro n
  induction n using Nat.strong_induction_on with
  | _ n ih =>
    intro m id hm hlen hmem
    by_cases hn : n = 0
    · subst hn
      have : id = [] := List.length_eq_zero.mp hlen
      subst this
      simp only [List.take_zero, if_true, Finset.sum_const, Finset.card_univ, smul_eq_mul,
        mul_one, Fintype.card_fun, Fintype.card_fin]
      exact pow_two_eight m
    · by_cases hm2 : m = 2
      · subst hm2
        have hn1 : n = 1 := by omega
        subst hn1
        match id, hlen with
        | [x], _ =>
          have hx : x ∈ encodeStd := hmem x (by simp)
          unfold bufferOf
          rw [sum_ofFn_succ (fun l => if (Encode l).take 1 = [x] then 1 else 0)]
          have step : ∀ a : Fin 256,
              (∑ g : Fin 1 → Fin 256,
                (if (Encode (a.val :: List.ofFn (fun i => (g i).val))).take 1 = [x]
                  then 1 else 0))
              = ∑ _b : Fin 256, (if enc (a.val / 4) = x then 1 else 0) := by
            intro a
            rw [sum_ofFn_succ
              (fun l => if (Encode (a.val :: l)).take 1 = [x] then 1 else 0)]
            refine Finset.sum_congr rfl (fun b _ => ?_)
            rw [sum_ofFn_zero
              (fun l => if (Encode (a.val :: b.val :: l)).take 1 = [x] then 1 else 0),
              Encode_pair a.val b.val a.isLt b.isLt]
            simp
          simp only [step]
          exact count_pairs x hx
      · obtain ⟨k, rfl⟩ : ∃ k, m = k + 3 := ⟨m - 3, by omega⟩
        have e : 6 * (4 - min n 4) + (8 * k - 6 * (n - 4)) = 8 * (k + 3) - 6 * n := by omega
        have hlt : n - 4 < n := by omega
        have hk : 2 * (n - 4) ≤ k := by omega
        unfold bufferOf
        rw [sum_ofFn_succ3 (fun l => if (Encode l).take n = id then 1 else 0)]
        have hrest : ∑ g : Fin k → Fin 256,
            (if (Encode (List.ofFn (fun i => (g i).val))).take (n - 4) = id.drop 4
              then 1 else 0) = 2 ^ (8 * k - 6 * (n - 4)) :=
          ih (n - 4) hlt k (id.drop 4) hk (by simp [hlen])
            (fun c hc => hmem c (List.mem_of_mem_drop hc))
        have hfirst := count_triples n (id.take 4) (by simp [hlen, Nat.min_comm])
          (fun c hc => hmem c (List.mem_of_mem_take hc))
        have step : ∀ a b c : Fin 256, ∀ g : Fin k → Fin 256,
            (if (Encode (a.val :: b.val :: c.val :: List.ofFn (fun i => (g i).val))).take n = id
              then 1 else 0)
            = (if [enc (a.val / 4), enc (a.val % 4 * 16 + b.val / 16),
                  enc (b.val % 16 * 4 + c.val / 64), enc (c.val % 64)].take n = id.take 4
                then 1 else 0)
              * (if (Encode (List.ofFn (fun i => (g i).val))).take (n - 4) = id.drop 4
                then 1 else 0) := by
          intro a b c g
          rw [Encode_cons3 a.val b.val c.val _ a.isLt b.isLt c.isLt,
            List.take_append_eq_append_take]
          have hl : ([enc (a.val / 4), enc (a.val % 4 * 16 + b.val / 16),
              enc (b.val % 16 * 4 + c.val / 64), enc (c.val % 64)].take n).length
              = min id.length 4 := by
            rw [List.length_take, hlen]
            rfl
          have hiff := append_eq_split _
            ((Encode (List.ofFn (fun i => (g i).val))).take (n - 4)) id hl
          simp only [List.length_cons, List.length_nil] at hiff ⊢
          by_cases h1 : [enc (a.val / 4), enc (a.val % 4 * 16 + b.val / 16),
              enc (b.val % 16 * 4 + c.val / 64), enc (c.val % 64)].take n = id.take 4
          · by_cases h2 : (Encode (List.ofFn (fun i => (g i).val))).take (n - 4) = id.drop 4
            · rw [if_pos (hiff.2 ⟨h1, h2⟩), if_pos h1, if_pos h2]
            · rw [if_neg (fun e => h2 (hiff.1 e).2), if_pos h1, if_neg h2]
          · rw [if_neg (fun e => h1 (hiff.1 e).1), if_neg h1, Nat.zero_mul]
        have inner : ∀ a b c : Fin 256,
            (∑ g : Fin k → Fin 256,
              (if (Encode (a.val :: b.val :: c.val :: List.ofFn (fun i => (g i).val))).take n
                  = id then 1 else 0))
            = (if [enc (a.val / 4), enc (a.val % 4 * 16 + b.val / 16),
                  enc (b.val % 16 * 4 + c.val / 64), enc (c.val % 64)].take n = id.take 4
                then 1 else 0) * 2 ^ (8 * k - 6 * (n - 4)) := by
          intro a b c
          rw [← hrest, Finset.mul_sum]
          exact Finset.sum_congr rfl (fun g _ => step a b c g)
        simp only [inner]
        simp only [← Finset.sum_mul]
        rw [hfirst, pow_two_six, ← pow_add, e]

theorem randRead_lt (n : Nat) (rnd : List Nat) : ∀ b ∈ randRead n rnd, b < 256 := by
  intro b hb
  simp only [randRead, List.mem_map] at hb
  obtain ⟨i, _, rfl⟩ := hb
  exact Nat.mod_lt _ (by decide)

theorem randRead_self (n : Nat) (l : List Nat) (hl : l.length = n) (hb : ∀ b ∈ l, b < 256) :
    randRead n l = l := by
  apply List.ext_getElem
  · rw [randRead_length, hl]
  · intro i h1 h2
    simp only [randRead, List.getElem_map, List.getElem_range]
    rw [List.getD_eq_getElem _ _ h2]
    exact Nat.mod_eq_of_lt (hb _ (List.getElem_mem h2))

theorem randRead_bufferOf {m : Nat} (f : Fin m → Fin 256) :
    randRead m (bufferOf f) = bufferOf f := by
  apply randRead_self
  · simp [bufferOf]
  · intro b hb
    simp only [bufferOf, List.mem_ofFn] at hb
    obtain ⟨i, rfl⟩ := hb
    exact (f i).isLt

theorem encodeChar_mem (v : Nat) : encodeChar v ∈ encodeStd := by
  rw [encodeChar_eq]
  exact (mem_encodeStd_iff _).2 ⟨⟨v % 64, Nat.mod_lt _ (by decide)⟩, rfl⟩

/-- The first `n` characters of the encoding of at least `2 n` bytes are
characters of the alphabet. -/
theorem Encode_take_mem : ∀ (buf : GoString) (n : Nat), 2 * n ≤ buf.length →
    ∀ c ∈ (Encode buf).take n, c ∈ encodeStd
  | a :: b :: c :: rest, n, h => by
      intro x hx
      have e : Encode (a :: b :: c :: rest)
          = [encodeChar ((a <<< 16 ||| b <<< 8 ||| c) >>> 18),
              encodeChar ((a <<< 16 ||| b <<< 8 ||| c) >>> 12),
              encodeChar ((a <<< 16 ||| b <<< 8 ||| c) >>> 6),
              encodeChar (a <<< 16 ||| b <<< 8 ||| c)] ++ Encode rest := by
        simp [Encode]
      rw [e, List.take_append_eq_append_take, List.mem_append] at hx
      rcases hx with hx | hx
      · have := List.mem_of_mem_take hx
        simp only [List.mem_cons, List.mem_singleton, List.not_mem_nil, or_false] at this
        rcases this with h1 | h1 | h1 | h1 <;> rw [h1] <;> exact encodeChar_mem _
      · have hl : 2 * (n - 4) ≤ rest.length := by
          simp only [List.length_cons] at h ⊢
          omega
        exact Encode_take_mem rest _ hl x hx
  | [a, b], n, h => by
      intro x hx
      have hn : n ≤ 1 := by
        simp only [List.length_cons, List.length_nil] at h
        omega
      have e : (Encode [a, b]).take n = [encodeChar ((a <<< 16 ||| b <<< 8) >>> 18)].take n := by
        interval_cases n <;> simp [Encode]
      rw [e] at hx
      have := List.mem_of_mem_take hx
      simp only [List.mem_singleton] at this
      rw [this]
      exact encodeChar_mem _
  | [a], n, h => by
      intro x hx
      have hn : n = 0 := by
        simp only [List.length_cons, List.length_nil] at h
        omega
      subst hn
      simp at hx
  | [], n, _ => by
      intro x hx
      simp [Encode] at hx

theorem card_RandomString_fiber (n : Nat) (id : GoString) (hlen : id.length = n)
    (hmem : ∀ c ∈ id, c ∈ encodeStd) :
    (Finset.univ.filter
      (fun f : Fin (n * 2) → Fin 256 => RandomString n (bufferOf f) = some id)).card
      = 2 ^ (10 * n) := by
  rw [Finset.card_filter]
  have e : 8 * (n * 2) - 6 * n = 10 * n := by omega
  rw [← e, ← count_buffers n (n * 2) id (by omega) hlen hmem]
  refine Finset.sum_congr rfl (fun f _ => ?_)
  rw [RandomString_eq, randRead_bufferOf]
  simp only [Option.some.injEq]

theorem take_min_length (l : List Nat) (j : Nat) : l.take j = l.take (min j l.length) := by
  by_cases h : j ≤ l.length
  · rw [Nat.min_eq_left h]
  · have h1 : l.length ≤ j := by omega
    rw [Nat.min_eq_right h1, List.take_of_length_le h1, List.take_of_length_le (Nat.le_refl _)]

theorem sextet0 (a a2 : Nat) (ha : a < 256) (ha2 : a2 < 256)
    (e1 : a / 128 % 2 = a2 / 128 % 2) (e2 : a / 64 % 2 = a2 / 64 % 2)
    (e3 : a / 32 % 2 = a2 / 32 % 2) (e4 : a / 16 % 2 = a2 / 16 % 2)
    (e5 : a / 8 % 2 = a2 / 8 % 2) (e6 : a / 4 % 2 = a2 / 4 % 2) : a / 4 = a2 / 4 := by
  omega

theorem sextet1 (a a2 b b2 : Nat) (hb : b < 256) (hb2 : b2 < 256)
    (e1 : a / 2 % 2 = a2 / 2 % 2) (e2 : a % 2 = a2 % 2)
    (e3 : b / 128 % 2 = b2 / 128 % 2) (e4 : b / 64 % 2 = b2 / 64 % 2)
    (e5 : b / 32 % 2 = b2 / 32 % 2) (e6 : b / 16 % 2 = b2 / 16 % 2) :
    a % 4 * 16 + b / 16 = a2 % 4 * 16 + b2 / 16 := by
  omega

theorem sextet2 (b b2 c c2 : Nat) (hc : c < 256) (hc2 : c2 < 256)
    (e1 : b / 8 % 2 = b2 / 8 % 2) (e2 : b / 4 % 2 = b2 / 4 % 2)
    (e3 : b / 2 % 2 = b2 / 2 % 2) (e4 : b % 2 = b2 % 2)
    (e5 : c / 128 % 2 = c2 / 128 % 2) (e6 : c / 64 % 2 = c2 / 64 % 2) :
    b % 16 * 4 + c / 64 = b2 % 16 * 4 + c2 / 64 := by
  omega

theorem sextet3 (c c2 : Nat)
    (e1 : c / 32 % 2 = c2 / 32 % 2) (e2 : c / 16 % 2 = c2 / 16 % 2)
    (e3 : c / 8 % 2 = c2 / 8 % 2) (e4 : c / 4 % 2 = c2 / 4 % 2)
    (e5 : c / 2 % 2 = c2 / 2 % 2) (e6 : c % 2 = c2 % 2) : c % 64 = c2 % 64 := by
  omega

theorem sextets_of_bits (k : Nat) (hk : k ≤ 4) (a b c a2 b2 c2 : Nat)
    (ha : a < 256) (hb : b < 256) (hc : c < 256) (ha2 : a2 < 256) (hb2 : b2 < 256)
    (hc2 : c2 < 256)
    (h : (byteBits a ++ (byteBits b ++ byteBits c)).take (6 * k)
      = (byteBits a2 ++ (byteBits b2 ++ byteBits c2)).take (6 * k)) :
    [a / 4, a % 4 * 16 + b / 16, b % 16 * 4 + c / 64, c % 64].take k
      = [a2 / 4, a2 % 4 * 16 + b2 / 16, b2 % 16 * 4 + c2 / 64, c2 % 64].take k := by
  interval_cases k
  · simp
  · simp [byteBits] at h
    obtain ⟨e1, e2, e3, e4, e5, e6⟩ := h
    simp only [List.take_succ_cons, List.take_zero, List.cons.injEq, and_true]
    exact sextet0 a a2 ha ha2 e1 e2 e3 e4 e5 e6
  · simp [byteBits] at h
    obtain ⟨e1, e2, e3, e4, e5, e6, e7, e8, e9, e10, e11, e12⟩ := h
    simp only [List.take_succ_cons, List.take_zero, List.cons.injEq, and_true]
    exact ⟨sextet0 a a2 ha ha2 e1 e2 e3 e4 e5 e6,
      sextet1 a a2 b b2 hb hb2 e7 e8 e9 e10 e11 e12⟩
  · simp [byteBits] at h
    obtain ⟨e1, e2, e3, e4, e5, e6, e7, e8, e9, e10, e11, e12, e13, e14, e15, e16, e17, e18⟩
      := h
    simp only [List.take_succ_cons, List.take_zero, List.cons.injEq, and_true]
    exact ⟨sextet0 a a2 ha ha2 e1 e2 e3 e4 e5 e6,
      sextet1 a a2 b b2 hb hb2 e7 e8 e9 e10 e11 e12,
      sextet2 b b2 c c2 hc hc2 e13 e14 e15 e16 e17 e18⟩
  · simp [byteBits] at h
    obtain ⟨e1, e2, e3, e4, e5, e6, e7, e8, e9, e10, e11, e12, e13, e14, e15, e16, e17, e18,
      e19, e20, e21, e22, e23, e24⟩ := h
    simp only [List.take_succ_cons, List.take_zero, List.cons.injEq, and_true]
    exact ⟨sextet0 a a2 ha ha2 e1 e2 e3 e4 e5 e6,
      sextet1 a a2 b b2 hb hb2 e7 e8 e9 e10 e11 e12,
      sextet2 b b2 c c2 hc hc2 e13 e14 e15 e16 e17 e18,
      sextet3 c c2 e19 e20 e21 e22 e23 e24⟩

theorem sextet_of_bits_pair (a b a2 b2 : Nat) (ha : a < 256) (ha2 : a2 < 256)
    (h : (byteBits a ++ byteBits b).take 6 = (byteBits a2 ++ byteBits b2).take 6) :
    a / 4 = a2 / 4 := by
  simp [byteBits] at h
  obtain ⟨e1, e2, e3, e4, e5, e6⟩ := h
  exact sextet0 a a2 ha ha2 e1 e2 e3 e4 e5 e6

theorem exists_cons3 (l : List Nat) (h : 3 ≤ l.length) : ∃ a b c r, l = a :: b :: c :: r := by
  match l, h with
  | a :: b :: c :: r, _ => exact ⟨a, b, c, r, rfl⟩

theorem bitsOf_cons3 (a b c : Nat) (r : GoString) :
    bitsOf (a :: b :: c :: r) = (byteBits a ++ (byteBits b ++ byteBits c)) ++ bitsOf r := by
  simp [bitsOf, List.flatMap_cons, List.append_assoc]

theorem byteBits_length3 (a b c : Nat) :
    (byteBits a ++ (byteBits b ++ byteBits c)).length = 24 := by
  simp [byteBits]

theorem take_bits_cons3 (j a b c : Nat) (r : GoString) :
    (bitsOf (a :: b :: c :: r)).take j
      = (byteBits a ++ (byteBits b ++ byteBits c)).take j ++ (bitsOf r).take (j - 24) := by
  rw [bitsOf_cons3, List.take_append_eq_append_take, byteBits_length3]

theorem Encode_cons3_map (a b c : Nat) (rest : GoString) (ha : a < 256) (hb : b < 256)
    (hc : c < 256) :
    Encode (a :: b :: c :: rest)
      = [a / 4, a % 4 * 16 + b / 16, b % 16 * 4 + c / 64, c % 64].map enc ++ Encode rest := by
  rw [Encode_cons3 a b c rest ha hb hc]
  rfl

/-- The first `n` characters of the encoding are determined by the first
`6 n` bits of the buffer. -/
theorem Encode_take_of_bits : ∀ (n : Nat) (b1 b2 : GoString), b1.length = b2.length →
    2 * n ≤ b1.length → (∀ x ∈ b1, x < 256) → (∀ x ∈ b2, x < 256) →
    (bitsOf b1).take (6 * n) = (bitsOf b2).take (6 * n) →
    (Encode b1).take n = (Encode b2).take n := by
  intro n
  induction n using Nat.strong_induction_on with
  | _ n ih =>
    intro b1 b2 hlen hm h1 h2 hbits
    by_cases hn : n = 0
    · subst hn
      simp
    · by_cases hm2 : b1.length = 2
      · have hn1 : n = 1 := by omega
        subst hn1
        obtain ⟨a, b, rfl⟩ := List.length_eq_two.mp hm2
        obtain ⟨a2, b3, rfl⟩ := List.length_eq_two.mp (hlen ▸ hm2)
        have ha : a < 256 := h1 a (by simp)
        have hb : b < 256 := h1 b (by simp)
        have ha2 : a2 < 256 := h2 a2 (by simp)
        have hb2 : b3 < 256 := h2 b3 (by simp)
        have hb6 : (byteBits a ++ byteBits b).take 6 = (byteBits a2 ++ byteBits b3).take 6 := by
          simpa [bitsOf, List.flatMap_cons] using hbits
        have e := sextet_of_bits_pair a b a2 b3 ha ha2 hb6
        rw [Encode_pair a b ha hb, Encode_pair a2 b3 ha2 hb2]
        simp only [List.take_succ_cons, List.take_zero, e]
      · have hl1 : 3 ≤ b1.length := by omega
        have hl2 : 3 ≤ b2.length := by omega
        obtain ⟨a, b, c, r1, rfl⟩ := exists_cons3 b1 hl1
        obtain ⟨a2, b3, c2, r2, rfl⟩ := exists_cons3 b2 hl2
        have ha : a < 256 := h1 a (by simp)
        have hb : b < 256 := h1 b (by simp)
        have hc : c < 256 := h1 c (by simp)
        have ha2 : a2 < 256 := h2 a2 (by simp)
        have hb2 : b3 < 256 := h2 b3 (by simp)
        have hc2 : c2 < 256 := h2 c2 (by simp)
        have hr1 : ∀ x ∈ r1, x < 256 := fun x hx => h1 x (by simp [hx])
        have hr2 : ∀ x ∈ r2, x < 256 := fun x hx => h2 x (by simp [hx])
        have hrl : r1.length = r2.length := by simpa using hlen
        have hrm : 2 * (n - 4) ≤ r1.length := by
          simp only [List.length_cons] at hm
          omega
        have hlt : n - 4 < n := by omega
        have hexp : 6 * n - 24 = 6 * (n - 4) := by omega
        have hmin : min (6 * n) 24 = min (6 * (min n 4)) 24 := by omega
        have hk : min n 4 ≤ 4 := by omega
        rw [take_bits_cons3, take_bits_cons3] at hbits
        have hlen24 : ((byteBits a ++ (byteBits b ++ byteBits c)).take (6 * n)).length
            = ((byteBits a2 ++ (byteBits b3 ++ byteBits c2)).take (6 * n)).length := by
          rw [List.length_take, List.length_take, byteBits_length3, byteBits_length3]
        obtain ⟨hX, hY⟩ := List.append_inj hbits hlen24
        rw [hexp] at hY
        have hX2 : (byteBits a ++ (byteBits b ++ byteBits c)).take (6 * (min n 4))
            = (byteBits a2 ++ (byteBits b3 ++ byteBits c2)).take (6 * (min n 4)) := by
          rw [take_min_length _ (6 * (min n 4)), take_min_length (byteBits a2 ++ _) _,
            byteBits_length3, byteBits_length3, ← hmin]
          rw [take_min_length _ (6 * n), take_min_length (byteBits a2 ++ _) _,
            byteBits_length3, byteBits_length3] at hX
          exact hX
        have hS := sextets_of_bits (min n 4) hk a b c a2 b3 c2 ha hb hc ha2 hb2 hc2 hX2
        have hE := ih (n - 4) hlt r1 r2 hrl hrm hr1 hr2 hY
        rw [Encode_cons3_map a b c r1 ha hb hc, Encode_cons3_map a2 b3 c2 r2 ha2 hb2 hc2,
          List.take_append_eq_append_take, List.take_append_eq_append_take]
        simp only [List.length_map, List.length_cons, List.length_nil]
        rw [hE]
        congr 1
        rw [take_min_length _ n, take_min_length (List.map enc [a2 / 4, _, _, _]) n]
        simp only [List.length_map, List.length_cons, List.length_nil]
        rw [← List.map_take, ← List.map_take, hS]

theorem randRead_eq_bufferOf (m : Nat) (rnd : List Nat) :
    randRead m rnd
      = bufferOf (fun i : Fin m => (⟨rnd.getD i.val 0 % 256, Nat.mod_lt _ (by decide)⟩ : Fin 256)) := by
  apply List.ext_getElem
  · simp [randRead, bufferOf]
  · intro i h1 h2
    simp [randRead, bufferOf]

/-! ## C10: ids are uniform over the alphabet -/

/-- C10: `RandomString n` depends only on the first `6 n` bits of its
`2 n`-byte buffer; the buffers are the `2 ^ (16 n)` functions from `2 n`
positions to bytes, and every `n`-character string over the 64 distinct
characters of the base64 alphabet is the result for exactly `2 ^ (10 n)` of
them, so a uniform buffer gives a uniform id; every id has `n` characters of
the alphabet, and the padding character `=` is none of them. -/
theorem C10_RandomString_uniform (n : Nat) :
    (∀ rnd1 rnd2 : List Nat,
      (bitsOf (randRead (n * 2) rnd1)).take (6 * n)
        = (bitsOf (randRead (n * 2) rnd2)).take (6 * n) →
      RandomString n rnd1 = RandomString n rnd2) ∧
    (∀ rnd : List Nat, ∃ f : Fin (n * 2) → Fin 256,
      randRead (n * 2) rnd = bufferOf f ∧ RandomString n rnd = RandomString n (bufferOf f)) ∧
    Fintype.card (Fin (n * 2) → Fin 256) = 2 ^ (16 * n) ∧
    (∀ id : GoString, id.length = n → (∀ c ∈ id, c ∈ encodeStd) →
      (Finset.univ.filter
        (fun f : Fin (n * 2) → Fin 256 => RandomString n (bufferOf f) = some id)).card
        = 2 ^ (10 * n)) ∧
    (∀ (rnd : List Nat) (id : GoString), RandomString n rnd = some id →
      id.length = n ∧ ∀ c ∈ id, c ∈ encodeStd ∧ c ≠ StdPadding) ∧
    encodeStd.length = 64 ∧ encodeStd.Nodup := by
  refine ⟨?_, ?_, ?_, ?_, ?_, by decide, by decide⟩
  · intro rnd1 rnd2 h
    rw [RandomString_eq, RandomString_eq]
    have hl : (randRead (n * 2) rnd1).length = (randRead (n * 2) rnd2).length := by
      rw [randRead_length, randRead_length]
    have hm : 2 * n ≤ (randRead (n * 2) rnd1).length := by
      rw [randRead_length]
      omega
    rw [Encode_take_of_bits n _ _ hl hm (randRead_lt _ _) (randRead_lt _ _) h]
  · intro rnd
    refine ⟨_, randRead_eq_bufferOf (n * 2) rnd, ?_⟩
    rw [RandomString_eq, RandomString_eq, randRead_bufferOf, ← randRead_eq_bufferOf]
  · rw [Fintype.card_fun, Fintype.card_fin, Fintype.card_fin, pow_two_eight]
    congr 1
    omega
  · intro id hlen hmem
    exact card_RandomString_fiber n id hlen hmem
  · intro rnd id h
    obtain ⟨id2, h2, hlen⟩ := RandomString_length n rnd
    rw [h] at h2
    cases h2
    refine ⟨hlen, ?_⟩
    rw [RandomString_eq] at h
    cases h
    intro c hc
    have hm : 2 * n ≤ (randRead (n * 2) rnd).length := by
      rw [randRead_length]
      omega
    have hin := Encode_take_mem _ n hm c hc
    exact ⟨hin, fun e => StdPadding_not_mem (e ▸ hin)⟩

/-- C10 at a concrete input: of the `2 ^ 16` two-byte buffers, `2 ^ 10` give
the one-character id `A`. -/
theorem C10_RandomString_uniform_witness :
    (Finset.univ.filter
      (fun f : Fin (1 * 2) → Fin 256 => RandomString 1 (bufferOf f) = some (ascii "A"))).card
      = 2 ^ (10 * 1) :=
  (C10_RandomString_uniform 1).2.2.2.1 (ascii "A") rfl (by decide)

end Pastebin
